import Mathlib

/-!
Verification development for the Section File / PSI Table core of the
tsduck transport-stream toolkit.  The repository snapshot contains the
unit test suite of this core (`SectionFileTest`) but not the library
implementation itself, so the data model and the operations below are
modelled from the specification (`spec.md`): descriptors, sections,
binary tables, the serializer/segmenter with its per-family atomicity
rules, the typed tables PAT / PMT / CAT / TDT, the XML bridge, and the
SectionFile aggregate.
-/

set_option maxHeartbeats 1000000
set_option maxRecDepth 100000

/-- Modelled from the spec: a descriptor is an 8-bit tag, an 8-bit length
and payload bytes; total encoded size is `2 + length` (spec section 3). -/
structure Descriptor where
  tag : Nat
  payload : List Nat
deriving DecidableEq

/-- Encoded size of a descriptor: 2 header bytes plus the payload. -/
def descSize (d : Descriptor) : Nat := 2 + d.payload.length

/-- Wire encoding of a descriptor: tag byte, length byte, payload bytes. -/
def encDesc (d : Descriptor) : List Nat :=
  d.tag % 256 :: d.payload.length % 256 :: d.payload

/-- Wire encoding of a descriptor list: concatenation in order. -/
def encDescList (ds : List Descriptor) : List Nat := (ds.map encDesc).flatten

/-- Accumulated encoded size of a descriptor list. -/
def descListSize (ds : List Descriptor) : Nat := (ds.map descSize).sum

/-- Well-formedness of a descriptor: tag and length fit in one byte
(spec section 3: 8-bit tag, 8-bit length 0-255). -/
def Descriptor.wf (d : Descriptor) : Prop := d.tag ≤ 255 ∧ d.payload.length ≤ 255

instance (d : Descriptor) : Decidable d.wf :=
  inferInstanceAs (Decidable (d.tag ≤ 255 ∧ d.payload.length ≤ 255))

/-- Modelled from the spec: one PSI section (spec section 3), short or long,
with its structured header fields, payload bytes, and the non-wire
free-form attribute string `attrib`. -/
structure PSISection where
  table_id : Nat
  long : Bool
  priv : Bool
  table_id_ext : Nat
  version : Nat
  current : Bool
  section_number : Nat
  last_section_number : Nat
  payload : List Nat
  attrib : String
deriving DecidableEq

/-- Payload size of a section in bytes. -/
def PSISection.payloadSize (s : PSISection) : Nat := s.payload.length

/-- Total encoded size of a section: 3 header bytes for a short section,
8 header bytes plus a 4-byte CRC for a long one (spec section 4.6:
12 bytes of envelope). -/
def PSISection.size (s : PSISection) : Nat :=
  s.payload.length + (if s.long then 12 else 3)

/-- Modelled from the spec: a binary table is an ordered collection of
sections plus the propagated attribute string (spec sections 3 and 4.7). -/
structure BinaryTable where
  attrib : String
  sections : List PSISection
deriving DecidableEq

/-- Number of sections of a binary table. -/
def BinaryTable.sectionCount (bt : BinaryTable) : Nat := bt.sections.length

/-- Table id of a binary table (taken from its first section). -/
def BinaryTable.tableId (bt : BinaryTable) : Nat :=
  match bt.sections with
  | [] => 0
  | s :: _ => s.table_id

/-- Table id extension of a binary table (taken from its first section). -/
def BinaryTable.tableIdExtension (bt : BinaryTable) : Nat :=
  match bt.sections with
  | [] => 0
  | s :: _ => s.table_id_ext

/-- Per-section part of binary-table validity: fixed fields agree with the
set, the section number equals the position, and the encoded size fits in
1024 bytes (spec section 3). -/
def sectionOk (tid : Nat) (lng pr : Bool) (ext ver : Nat) (cur : Bool)
    (last i : Nat) (s : PSISection) : Bool :=
  s.table_id == tid && s.long == lng && s.priv == pr && s.table_id_ext == ext &&
  s.version == ver && s.current == cur && s.section_number == i &&
  s.last_section_number == last && decide (s.size ≤ 1024)

/-- Check a run of sections starting at position `i`. -/
def sectionsOkFrom (tid : Nat) (lng pr : Bool) (ext ver : Nat) (cur : Bool)
    (last : Nat) : Nat → List PSISection → Bool
  | _, [] => true
  | i, s :: rest =>
    sectionOk tid lng pr ext ver cur last i s &&
    sectionsOkFrom tid lng pr ext ver cur last (i + 1) rest

/-- Modelled from the spec: a binary table is valid iff its section set is
complete and consistent: nonempty, contiguous section numbers `0..N-1`,
`last_section_number = N-1`, identical fixed fields, each section at most
1024 bytes; a short table has exactly one section (spec section 3). -/
def BinaryTable.isValid (bt : BinaryTable) : Bool :=
  match bt.sections with
  | [] => false
  | s0 :: rest =>
    if s0.long then
      (s0 :: rest).length == s0.last_section_number + 1 &&
      sectionsOkFrom s0.table_id true s0.priv s0.table_id_ext s0.version
        s0.current s0.last_section_number 0 (s0 :: rest)
    else rest.isEmpty && decide (s0.size ≤ 1024)

/-- Modelled from the spec: the greedy segmenter of spec section 4.6.
Atomic records are placed in order; a record that crosses the remaining
section budget closes the current section and starts a new one.
`cur` is the reversed list of records already in the current section and
`used` their accumulated size. -/
def packItems {α : Type} (budget : Nat) (sz : α → Nat) :
    List α → List α → Nat → List (List α)
  | [], cur, _ => [cur.reverse]
  | a :: rest, cur, used =>
    if used + sz a ≤ budget then packItems budget sz rest (a :: cur) (used + sz a)
    else cur.reverse :: packItems budget sz rest [a] (sz a)

/-- The segmenter never splits a record: the chunks concatenate back to the
input, in order. -/
theorem packItems_join {α : Type} (b : Nat) (sz : α → Nat) :
    ∀ (l cur : List α) (used : Nat),
      (packItems b sz l cur used).flatten = cur.reverse ++ l := by
  intro l
  induction l with
  | nil => intro cur used; simp [packItems]
  | cons a rest ih =>
    intro cur used
    by_cases h : used + sz a ≤ b
    · simp [packItems, h, ih]
    · simp [packItems, h, ih, List.append_assoc]

/-- The segmenter always produces at least one (possibly empty) section. -/
theorem packItems_ne_nil {α : Type} (b : Nat) (sz : α → Nat) :
    ∀ (l cur : List α) (used : Nat), packItems b sz l cur used ≠ [] := by
  intro l
  induction l with
  | nil => intro cur used; simp [packItems]
  | cons a rest ih =>
    intro cur used
    by_cases h : used + sz a ≤ b
    · simpa [packItems, h] using ih (a :: cur) (used + sz a)
    · simp [packItems, h]

/-- The chunk structure only depends on the record sizes: packing records
with size function `sz` and then taking sizes is packing the size list. -/
theorem packItems_map {α : Type} (b : Nat) (sz : α → Nat) :
    ∀ (l cur : List α) (used : Nat),
      (packItems b sz l cur used).map (List.map sz) =
        packItems b id (l.map sz) (cur.map sz) used := by
  intro l
  induction l with
  | nil => intro cur used; simp [packItems]
  | cons a rest ih =>
    intro cur used
    by_cases h : used + sz a ≤ b
    · simp [packItems, h, ih]
    · simp [packItems, h, ih]

/-- Every chunk produced by the segmenter fits in the budget, provided each
single record does (spec section 4.6: `Overflow` is the only exception). -/
theorem packItems_sum_le {α : Type} (b : Nat) (sz : α → Nat) :
    ∀ (l cur : List α) (used : Nat),
      (∀ a ∈ l, sz a ≤ b) → used ≤ b → (cur.map sz).sum = used →
      ∀ c ∈ packItems b sz l cur used, (c.map sz).sum ≤ b := by
  intro l
  induction l with
  | nil =>
    intro cur used _ hused hsum c hc
    simp [packItems] at hc
    subst hc
    simpa [List.sum_reverse, hsum] using hused
  | cons a rest ih =>
    intro cur used hall hused hsum c hc
    by_cases h : used + sz a ≤ b
    · simp only [packItems, if_pos h] at hc
      exact ih (a :: cur) (used + sz a)
        (fun x hx => hall x (List.mem_cons_of_mem _ hx)) h
        (by simp [hsum, Nat.add_comm]) c hc
    · simp only [packItems, if_neg h] at hc
      rcases List.mem_cons.mp hc with hc | hc
      · subst hc; simpa [List.sum_reverse, hsum] using hused
      · exact ih [a] (sz a)
          (fun x hx => hall x (List.mem_cons_of_mem _ hx))
          (hall a (List.mem_cons_self a rest)) (by simp) c hc

/-- Every record in a chunk comes from the input. -/
theorem packItems_mem {α : Type} (b : Nat) (sz : α → Nat)
    (l : List α) (c : List α) (hc : c ∈ packItems b sz l [] 0)
    (x : α) (hx : x ∈ c) : x ∈ l := by
  have hj : x ∈ (packItems b sz l [] 0).flatten := List.mem_flatten.mpr ⟨c, hc, hx⟩
  rwa [packItems_join, List.reverse_nil, List.nil_append] at hj

/-- Helper for building the sections of a long table: one section per
payload, with consecutive section numbers starting at `i`. -/
def mkSectionsAux (tid : Nat) (pr : Bool) (ext ver : Nat) (cur : Bool)
    (at_tr : String) (last : Nat) : Nat → List (List Nat) → List PSISection
  | _, [] => []
  | i, p :: ps =>
    { table_id := tid, long := true, priv := pr, table_id_ext := ext,
      version := ver, current := cur, section_number := i,
      last_section_number := last, payload := p, attrib := at_tr } ::
    mkSectionsAux tid pr ext ver cur at_tr last (i + 1) ps

/-- Modelled from the spec: build the section list of a long table from its
per-section payloads; section numbers start at 0 and
`last_section_number = N-1` (spec section 4.6 step 4). -/
def mkLongSections (tid : Nat) (pr : Bool) (ext ver : Nat) (cur : Bool)
    (at_tr : String) (payloads : List (List Nat)) : List PSISection :=
  mkSectionsAux tid pr ext ver cur at_tr (payloads.length - 1) 0 payloads

theorem mkSectionsAux_length (tid : Nat) (pr : Bool) (ext ver : Nat)
    (cur : Bool) (at_tr : String) (last : Nat) :
    ∀ (ps : List (List Nat)) (i : Nat),
      (mkSectionsAux tid pr ext ver cur at_tr last i ps).length = ps.length := by
  intro ps
  induction ps with
  | nil => intro i; simp [mkSectionsAux]
  | cons p ps ih => intro i; simp only [mkSectionsAux, List.length_cons, ih]

theorem mkSectionsAux_map_payload (tid : Nat) (pr : Bool) (ext ver : Nat)
    (cur : Bool) (at_tr : String) (last : Nat) :
    ∀ (ps : List (List Nat)) (i : Nat),
      (mkSectionsAux tid pr ext ver cur at_tr last i ps).map PSISection.payload
        = ps := by
  intro ps
  induction ps with
  | nil => intro i; simp [mkSectionsAux]
  | cons p ps ih => intro i; simp only [mkSectionsAux, List.map_cons, ih]

theorem mkSectionsAux_attr (tid : Nat) (pr : Bool) (ext ver : Nat)
    (cur : Bool) (at_tr : String) (last : Nat) :
    ∀ (ps : List (List Nat)) (i : Nat) (s : PSISection),
      s ∈ mkSectionsAux tid pr ext ver cur at_tr last i ps →
      s.attrib = at_tr := by
  intro ps
  induction ps with
  | nil => intro i s hs; simp [mkSectionsAux] at hs
  | cons p ps ih =>
    intro i s hs
    simp only [mkSectionsAux] at hs
    rcases List.mem_cons.mp hs with hs | hs
    · subst hs; rfl
    · exact ih (i + 1) s hs

theorem sectionsOkFrom_mkSectionsAux (tid : Nat) (pr : Bool) (ext ver : Nat)
    (cur : Bool) (at_tr : String) (last : Nat) :
    ∀ (ps : List (List Nat)) (i : Nat),
      (∀ p ∈ ps, p.length ≤ 1012) →
      sectionsOkFrom tid true pr ext ver cur last i
        (mkSectionsAux tid pr ext ver cur at_tr last i ps) = true := by
  intro ps
  induction ps with
  | nil => intro i _; simp [mkSectionsAux, sectionsOkFrom]
  | cons p ps ih =>
    intro i hlen
    have hp : p.length ≤ 1012 := hlen p (List.mem_cons_self p ps)
    have hok : sectionOk tid true pr ext ver cur last i
        { table_id := tid, long := true, priv := pr, table_id_ext := ext,
          version := ver, current := cur, section_number := i,
          last_section_number := last, payload := p, attrib := at_tr } = true := by
      simp [sectionOk, PSISection.size]
      omega
    simp only [mkSectionsAux, sectionsOkFrom, Bool.and_eq_true]
    exact ⟨hok, ih (i + 1) (fun q hq => hlen q (List.mem_cons_of_mem _ hq))⟩

/-- A long table built from a nonempty list of payloads each at most
1012 bytes is valid. -/
theorem mkLongSections_isValid (tid : Nat) (pr : Bool) (ext ver : Nat)
    (cur : Bool) (at_tr : String) (ats : String) (payloads : List (List Nat))
    (hne : payloads ≠ []) (hlen : ∀ p ∈ payloads, p.length ≤ 1012) :
    (BinaryTable.mk ats
      (mkLongSections tid pr ext ver cur at_tr payloads)).isValid = true := by
  rcases payloads with _ | ⟨p, ps⟩
  · exact absurd rfl hne
  · have hsecs := sectionsOkFrom_mkSectionsAux tid pr ext ver cur at_tr
      ((p :: ps).length - 1) (p :: ps) 0 hlen
    have hlength := mkSectionsAux_length tid pr ext ver cur at_tr
      ((p :: ps).length - 1) (p :: ps) 0
    simp only [mkLongSections, mkSectionsAux] at hsecs hlength ⊢
    simp only [BinaryTable.isValid, if_true, Bool.and_eq_true, beq_iff_eq]
    refine ⟨?_, hsecs⟩
    simp only [List.length_cons] at hlength ⊢
    omega

theorem mkSectionsAux_map_size (tid : Nat) (pr : Bool) (ext ver : Nat)
    (cur : Bool) (at_tr : String) (last : Nat) :
    ∀ (ps : List (List Nat)) (i : Nat),
      (mkSectionsAux tid pr ext ver cur at_tr last i ps).map PSISection.size
        = ps.map (fun p => p.length + 12) := by
  intro ps
  induction ps with
  | nil => intro i; simp [mkSectionsAux]
  | cons p ps ih =>
    intro i
    simp only [mkSectionsAux, List.map_cons, ih]
    simp [PSISection.size]

theorem length_encDesc (d : Descriptor) : (encDesc d).length = descSize d := by
  simp [encDesc, descSize]
  omega

theorem length_encDescList (ds : List Descriptor) :
    (encDescList ds).length = descListSize ds := by
  induction ds with
  | nil => simp [encDescList, descListSize]
  | cons d ds ih =>
    simp only [encDescList, descListSize, List.map_cons, List.flatten_cons,
      List.length_append, List.sum_cons] at *
    rw [ih, length_encDesc]

/-- Table id of the CAT. -/
def TID_CAT : Nat := 1

/-- Modelled from the spec: the Conditional Access Table, a long table
carrying a single descriptor loop; its table id extension carries no
semantic value and is emitted as 0xFFFF (spec sections 4.4 and 4.5). -/
structure CAT where
  version : Nat
  current : Bool
  descs : List Descriptor
  attrib : String
deriving DecidableEq

/-- Modelled from the spec: CAT serialization (spec section 4.6).  No
per-section preamble; each descriptor is atomic; the payload budget per
long section is 1012 bytes; `Overflow` (`none`) when a single descriptor
exceeds the budget. -/
def serializeCAT (cat : CAT) : Option BinaryTable :=
  if cat.descs.all (fun d => decide (descSize d ≤ 1012)) then
    some ⟨cat.attrib,
      mkLongSections TID_CAT false 0xFFFF cat.version cat.current cat.attrib
        ((packItems 1012 descSize cat.descs [] 0).map encDescList)⟩
  else none

/-- Claim C1: for every CAT containing exactly 300 descriptors of 10
encoded bytes each, serialize produces a valid BinaryTable of exactly 3
sections whose payload sizes are, in section_number order, 1010, 1010 and
980 bytes (total section sizes 1022, 1022, 992), with no descriptor split
across a section boundary (each section payload is the concatenated
encoding of a contiguous run of whole descriptors). -/
theorem c1_cat_multisection (cat : CAT)
    (hn : cat.descs.length = 300) (hs : ∀ d ∈ cat.descs, descSize d = 10) :
    ∃ bt, serializeCAT cat = some bt ∧ bt.isValid = true ∧
      bt.sections.map PSISection.payloadSize = [1010, 1010, 980] ∧
      bt.sections.map PSISection.size = [1022, 1022, 992] ∧
      ∃ g0 g1 g2 : List Descriptor, cat.descs = g0 ++ g1 ++ g2 ∧
        bt.sections.map PSISection.payload =
          [encDescList g0, encDescList g1, encDescList g2] := by
  have hguard : cat.descs.all (fun d => decide (descSize d ≤ 1012)) = true := by
    rw [List.all_eq_true]
    intro d hd
    simp [hs d hd]
  have hmapsz : cat.descs.map descSize = List.replicate 300 10 := by
    rw [List.eq_replicate_iff]
    exact ⟨by simp [hn], by intro b hb; obtain ⟨d, hd, rfl⟩ := List.mem_map.mp hb; exact hs d hd⟩
  have hkey : (packItems 1012 descSize cat.descs [] 0).map (List.map descSize)
      = [List.replicate 101 10, List.replicate 101 10, List.replicate 98 10] := by
    rw [packItems_map]
    simp only [List.map_nil]
    rw [hmapsz]
    decide
  obtain ⟨g0, g1, g2, hchunks⟩ :
      ∃ a b c, packItems 1012 descSize cat.descs [] 0 = [a, b, c] := by
    have hlen3 : (packItems 1012 descSize cat.descs [] 0).length = 3 := by
      have := congrArg List.length hkey
      simpa using this
    exact List.length_eq_three.mp hlen3
  have hflat := packItems_join 1012 descSize cat.descs [] 0
  rw [hchunks] at hflat
  simp only [List.reverse_nil, List.nil_append, List.flatten_cons,
    List.flatten_nil, List.append_nil] at hflat
  rw [hchunks] at hkey
  simp only [List.map_cons, List.map_nil, List.cons.injEq, and_true] at hkey
  obtain ⟨h0, h1, h2⟩ := hkey
  have hlen0 : (encDescList g0).length = 1010 := by
    rw [length_encDescList, descListSize, h0]; simp
  have hlen1 : (encDescList g1).length = 1010 := by
    rw [length_encDescList, descListSize, h1]; simp
  have hlen2 : (encDescList g2).length = 980 := by
    rw [length_encDescList, descListSize, h2]; simp
  refine ⟨_, by rw [serializeCAT, if_pos hguard], ?_, ?_, ?_, g0, g1, g2, ?_, ?_⟩
  · apply mkLongSections_isValid
    · rw [hchunks]; simp
    · rw [hchunks]
      intro p hp
      simp only [List.map_cons, List.map_nil, List.mem_cons,
        List.not_mem_nil, or_false] at hp
      rcases hp with h | h | h
      · rw [h, hlen0]; omega
      · rw [h, hlen1]; omega
      · rw [h, hlen2]; omega
  · have hmp := mkSectionsAux_map_payload TID_CAT false 0xFFFF cat.version
      cat.current cat.attrib
      (((packItems 1012 descSize cat.descs [] 0).map encDescList).length - 1)
      ((packItems 1012 descSize cat.descs [] 0).map encDescList) 0
    show (mkLongSections TID_CAT false 0xFFFF cat.version cat.current cat.attrib
      ((packItems 1012 descSize cat.descs [] 0).map encDescList)).map
        PSISection.payloadSize = [1010, 1010, 980]
    have : (mkLongSections TID_CAT false 0xFFFF cat.version cat.current cat.attrib
        ((packItems 1012 descSize cat.descs [] 0).map encDescList)).map
          PSISection.payloadSize
        = (((packItems 1012 descSize cat.descs [] 0).map encDescList).map
            List.length) := by
      rw [show PSISection.payloadSize = List.length ∘ PSISection.payload from rfl,
        ← List.map_map, mkLongSections, hmp]
    rw [this, hchunks]
    simp [hlen0, hlen1, hlen2]
  · show (mkLongSections TID_CAT false 0xFFFF cat.version cat.current cat.attrib
      ((packItems 1012 descSize cat.descs [] 0).map encDescList)).map
        PSISection.size = [1022, 1022, 992]
    rw [mkLongSections, mkSectionsAux_map_size, hchunks]
    simp [hlen0, hlen1, hlen2]
  · rw [List.append_assoc]; exact hflat.symm
  · show (mkLongSections TID_CAT false 0xFFFF cat.version cat.current cat.attrib
      ((packItems 1012 descSize cat.descs [] 0).map encDescList)).map
        PSISection.payload = _
    rw [mkLongSections, mkSectionsAux_map_payload, hchunks]
    simp

/-- A concrete CA-identifier-style descriptor of encoded size 10. -/
def caDesc10 (k : Nat) : Descriptor :=
  ⟨0x53, [k % 256, (k + 1) % 256, (k + 2) % 256, (k + 3) % 256,
          (k + 4) % 256, (k + 5) % 256, (k + 6) % 256, (k + 7) % 256]⟩

/-- The CAT of the multi-section test: 300 ten-byte descriptors. -/
def catC1 : CAT :=
  ⟨0, true, (List.range 300).map caDesc10, ""⟩

theorem c1_cat_multisection_witness :
    (catC1.descs.length = 300 ∧ ∀ d ∈ catC1.descs, descSize d = 10) ∧
    (∃ bt, serializeCAT catC1 = some bt ∧ bt.isValid = true ∧
      bt.sections.map PSISection.payloadSize = [1010, 1010, 980] ∧
      bt.sections.map PSISection.size = [1022, 1022, 992] ∧
      ∃ g0 g1 g2 : List Descriptor, catC1.descs = g0 ++ g1 ++ g2 ∧
        bt.sections.map PSISection.payload =
          [encDescList g0, encDescList g1, encDescList g2]) :=
  ⟨⟨by decide, by decide⟩, c1_cat_multisection catC1 (by decide) (by decide)⟩

/-- Table id of the PMT. -/
def TID_PMT : Nat := 2

/-- Modelled from the spec: one elementary-stream entry of a PMT:
stream type plus its stream-level descriptor list (spec section 3). -/
structure PMTStream where
  stream_type : Nat
  descs : List Descriptor
deriving DecidableEq

/-- Modelled from the spec: the Program Map Table: service id (the table
id extension), PCR PID, program-level descriptor list and the ordered
elementary-PID → stream mapping (spec sections 3 and 4.5); the map is
represented as its ordered association list. -/
structure PMT where
  version : Nat
  current : Bool
  service_id : Nat
  pcr_pid : Nat
  descs : List Descriptor
  streams : List (Nat × PMTStream)
  attrib : String
deriving DecidableEq

/-- High byte of a 13-bit PID field, with the 3 reserved bits set. -/
def hi13 (n : Nat) : Nat := 0xE0 + (n / 256) % 32

/-- High byte of a 12-bit length field, with the 4 reserved bits set. -/
def hi12 (n : Nat) : Nat := 0xF0 + (n / 256) % 16

/-- Encoded size of one stream loop entry: stream_type (1) + PID (2) +
es_info_length (2) + its descriptors. -/
def streamSize (e : Nat × PMTStream) : Nat := 5 + descListSize e.2.descs

/-- A unit of the PMT body: a program-level descriptor or a whole
stream loop entry (both atomic for the segmenter, spec section 4.6). -/
abbrev PMTItem := Sum Descriptor (Nat × PMTStream)

/-- Encoded size of a PMT body unit. -/
def pmtItemSize : PMTItem → Nat
  | Sum.inl d => descSize d
  | Sum.inr e => streamSize e

/-- Project a PMT body unit to its program-level descriptor, if any. -/
def sumLeft : PMTItem → Option Descriptor
  | Sum.inl d => some d
  | Sum.inr _ => none

/-- Project a PMT body unit to its stream entry, if any. -/
def sumRight : PMTItem → Option (Nat × PMTStream)
  | Sum.inl _ => none
  | Sum.inr e => some e

/-- Wire encoding of one stream loop entry. -/
def encStream (e : Nat × PMTStream) : List Nat :=
  e.2.stream_type % 256 :: hi13 e.1 :: e.1 % 256 ::
  hi12 (descListSize e.2.descs) :: descListSize e.2.descs % 256 ::
  encDescList e.2.descs

/-- The 4-byte fixed part repeated in every PMT section: PCR PID and the
program_info_length of that section (spec section 4.6 step 2). -/
def pmtFixed (pcr n : Nat) : List Nat := [hi13 pcr, pcr % 256, hi12 n, n % 256]

/-- Payload of one PMT section, from the chunk of body units placed in it:
fixed part, then the program-level descriptors of this section, then its
whole stream loop entries. -/
def pmtChunkPayload (pcr : Nat) (chunk : List PMTItem) : List Nat :=
  pmtFixed pcr (descListSize (chunk.filterMap sumLeft)) ++
  encDescList (chunk.filterMap sumLeft) ++
  ((chunk.filterMap sumRight).map encStream).flatten

/-- The logical body of a PMT: program-level descriptors first, then the
stream loop entries (spec section 4.6: program-level descriptors fill from
section 0 first; once exhausted, stream loops begin). -/
def pmtItems (pmt : PMT) : List PMTItem :=
  pmt.descs.map Sum.inl ++ pmt.streams.map Sum.inr

/-- Modelled from the spec: PMT serialization (spec section 4.6).  Each
section repeats the 4-byte fixed part, so the per-section budget for body
units is 1008 bytes; descriptors and stream entries are atomic;
`Overflow` (`none`) when a single unit exceeds the budget. -/
def serializePMT (pmt : PMT) : Option BinaryTable :=
  if (pmtItems pmt).all (fun x => decide (pmtItemSize x ≤ 1008)) then
    some ⟨pmt.attrib,
      mkLongSections TID_PMT false pmt.service_id pmt.version pmt.current
        pmt.attrib
        ((packItems 1008 pmtItemSize (pmtItems pmt) [] 0).map
          (pmtChunkPayload pmt.pcr_pid))⟩
  else none

theorem filterMap_sumLeft_inl (l : List Descriptor) :
    (l.map Sum.inl : List PMTItem).filterMap sumLeft = l := by
  induction l with
  | nil => rfl
  | cons d l ih => simp [List.filterMap_cons, sumLeft, ih]

theorem filterMap_sumLeft_inr (l : List (Nat × PMTStream)) :
    (l.map Sum.inr : List PMTItem).filterMap sumLeft = [] := by
  induction l with
  | nil => rfl
  | cons e l ih => simp [List.filterMap_cons, sumLeft, ih]

theorem filterMap_sumRight_inl (l : List Descriptor) :
    (l.map Sum.inl : List PMTItem).filterMap sumRight = [] := by
  induction l with
  | nil => rfl
  | cons d l ih => simp [List.filterMap_cons, sumRight, ih]

theorem filterMap_sumRight_inr (l : List (Nat × PMTStream)) :
    (l.map Sum.inr : List PMTItem).filterMap sumRight = l := by
  induction l with
  | nil => rfl
  | cons e l ih => simp [List.filterMap_cons, sumRight, ih]

theorem length_encStream (e : Nat × PMTStream) :
    (encStream e).length = streamSize e := by
  simp [encStream, streamSize, length_encDescList]
  omega

/-- The sizes of the units of a chunk split into the descriptor part and
the stream part. -/
theorem chunk_sum_split (chunk : List PMTItem) :
    (chunk.map pmtItemSize).sum =
      descListSize (chunk.filterMap sumLeft) +
      ((chunk.filterMap sumRight).map streamSize).sum := by
  induction chunk with
  | nil => simp [descListSize]
  | cons x chunk ih =>
    cases x with
    | inl d =>
      simp only [List.map_cons, List.sum_cons, List.filterMap_cons, sumLeft,
        sumRight, pmtItemSize, ih, descListSize]
      simp [descListSize] at ih ⊢
      omega
    | inr e =>
      simp only [List.map_cons, List.sum_cons, List.filterMap_cons, sumLeft,
        sumRight, pmtItemSize, ih]
      omega

theorem pmtChunkPayload_length (pcr : Nat) (chunk : List PMTItem) :
    (pmtChunkPayload pcr chunk).length = 4 + (chunk.map pmtItemSize).sum := by
  have hs : (((chunk.filterMap sumRight).map encStream).flatten).length
      = ((chunk.filterMap sumRight).map streamSize).sum := by
    rw [List.length_flatten, List.map_map]
    congr 1
    apply List.map_congr_left
    intro e _
    exact length_encStream e
  simp only [pmtChunkPayload, List.length_append, pmtFixed,
    length_encDescList, hs, chunk_sum_split, List.length_cons, List.length_nil]
  omega

/-- Payload of a section holding only program-level descriptors. -/
theorem pmtChunkPayload_inl (pcr : Nat) (ds : List Descriptor) :
    pmtChunkPayload pcr (ds.map Sum.inl)
      = pmtFixed pcr (descListSize ds) ++ encDescList ds := by
  rw [pmtChunkPayload, filterMap_sumLeft_inl, filterMap_sumRight_inl]
  simp

/-- Payload of a section holding descriptors then whole stream entries. -/
theorem pmtChunkPayload_mixed (pcr : Nat) (ds : List Descriptor)
    (es : List (Nat × PMTStream)) :
    pmtChunkPayload pcr (ds.map Sum.inl ++ es.map Sum.inr)
      = pmtFixed pcr (descListSize ds) ++
        (encDescList ds ++ (es.map encStream).flatten) := by
  rw [pmtChunkPayload, List.filterMap_append, List.filterMap_append,
    filterMap_sumLeft_inl, filterMap_sumLeft_inr, filterMap_sumRight_inl,
    filterMap_sumRight_inr]
  simp [List.append_assoc]

/-- A three-chunk decomposition is determined by the chunk lengths. -/
theorem three_chunks {α : Type} (k0 k1 k2 items : List α) (n0 n1 : Nat)
    (hflat : k0 ++ k1 ++ k2 = items) (h0 : k0.length = n0) (h1 : k1.length = n1) :
    k0 = items.take n0 ∧ k1 = (items.drop n0).take n1 ∧
    k2 = (items.drop n0).drop n1 := by
  subst hflat
  rw [List.append_assoc]
  refine ⟨(List.take_left' h0).symm, ?_, ?_⟩
  · rw [List.drop_left' h0, List.take_left' h1]
  · rw [List.drop_left' h0, List.drop_left' h1]

/-- Claim C2: for every PMT containing exactly 202 program-level
descriptors of 10 encoded bytes each and one stream entry of 15 encoded
bytes (one such descriptor), serialize produces a valid BinaryTable of
exactly 3 sections whose payload sizes are, in section_number order,
1004, 1004 and 39 bytes, with the program-level descriptors filling the
earlier sections before any stream loop begins (the stream loop appears
only at the end of the last section). -/
theorem c2_pmt_program_level (pmt : PMT)
    (hn : pmt.descs.length = 202) (hs : ∀ d ∈ pmt.descs, descSize d = 10)
    (hstream : pmt.streams.map streamSize = [15]) :
    ∃ bt, serializePMT pmt = some bt ∧ bt.isValid = true ∧
      bt.sections.map PSISection.payloadSize = [1004, 1004, 39] ∧
      ∃ g0 g1 g2 : List Descriptor, pmt.descs = g0 ++ g1 ++ g2 ∧
        bt.sections.map PSISection.payload =
          [pmtFixed pmt.pcr_pid (descListSize g0) ++ encDescList g0,
           pmtFixed pmt.pcr_pid (descListSize g1) ++ encDescList g1,
           pmtFixed pmt.pcr_pid (descListSize g2) ++ (encDescList g2 ++
             (pmt.streams.map encStream).flatten)] := by
  have hmapdesc : pmt.descs.map descSize = List.replicate 202 10 := by
    rw [List.eq_replicate_iff]
    exact ⟨by simp [hn],
      by intro b hb; obtain ⟨d, hd, rfl⟩ := List.mem_map.mp hb; exact hs d hd⟩
  have hinl : (pmt.descs.map Sum.inl : List PMTItem).map pmtItemSize
      = List.replicate 202 10 := by
    rw [List.map_map, show pmtItemSize ∘ (Sum.inl : Descriptor → PMTItem)
      = descSize from rfl, hmapdesc]
  have hinr : (pmt.streams.map Sum.inr : List PMTItem).map pmtItemSize
      = [15] := by
    rw [List.map_map, show pmtItemSize ∘ (Sum.inr : Nat × PMTStream → PMTItem)
      = streamSize from rfl, hstream]
  have hitems : (pmtItems pmt).map pmtItemSize
      = List.replicate 202 10 ++ [15] := by
    rw [pmtItems, List.map_append, hinl, hinr]
  have hall : (pmtItems pmt).all (fun x => decide (pmtItemSize x ≤ 1008))
      = true := by
    rw [List.all_eq_true]
    intro x hx
    have hm : pmtItemSize x ∈ (pmtItems pmt).map pmtItemSize :=
      List.mem_map_of_mem _ hx
    rw [hitems] at hm
    simp only [List.mem_append, List.mem_replicate, List.mem_singleton] at hm
    rcases hm with ⟨-, h⟩ | h <;> simp [h]
  have hkey : (packItems 1008 pmtItemSize (pmtItems pmt) [] 0).map
      (List.map pmtItemSize)
      = [List.replicate 100 10, List.replicate 100 10, [10, 10, 15]] := by
    rw [packItems_map]
    simp only [List.map_nil]
    rw [hitems]
    decide
  obtain ⟨k0, k1, k2, hchunks⟩ :
      ∃ a b c, packItems 1008 pmtItemSize (pmtItems pmt) [] 0 = [a, b, c] := by
    have hlen3 : (packItems 1008 pmtItemSize (pmtItems pmt) [] 0).length = 3 := by
      have := congrArg List.length hkey
      simpa using this
    exact List.length_eq_three.mp hlen3
  rw [hchunks] at hkey
  simp only [List.map_cons, List.map_nil, List.cons.injEq, and_true] at hkey
  obtain ⟨hk0, hk1, hk2⟩ := hkey
  have hlen0 : k0.length = 100 := by
    have := congrArg List.length hk0; simpa using this
  have hlen1 : k1.length = 100 := by
    have := congrArg List.length hk1; simpa using this
  have hflat := packItems_join 1008 pmtItemSize (pmtItems pmt) [] 0
  rw [hchunks] at hflat
  simp only [List.reverse_nil, List.nil_append, List.flatten_cons,
    List.flatten_nil, List.append_nil] at hflat
  rw [← List.append_assoc] at hflat
  obtain ⟨he0, he1, he2⟩ := three_chunks k0 k1 k2 (pmtItems pmt) 100 100
    hflat hlen0 hlen1
  have hdlen : (pmt.descs.map Sum.inl : List PMTItem).length = 202 := by
    simp [hn]
  have htake : (pmtItems pmt).take 100 = (pmt.descs.take 100).map Sum.inl := by
    rw [pmtItems, List.take_append_of_le_length (by omega), List.map_take]
  have hdrop : (pmtItems pmt).drop 100
      = ((pmt.descs.drop 100).map Sum.inl : List PMTItem)
        ++ pmt.streams.map Sum.inr := by
    rw [pmtItems, List.drop_append_of_le_length (by omega), List.map_drop]
  have hdroplen : ((pmt.descs.drop 100).map Sum.inl : List PMTItem).length
      = 102 := by simp [hn]
  have he1' : k1 = ((pmt.descs.drop 100).take 100).map Sum.inl := by
    rw [he1, hdrop, List.take_append_of_le_length (by omega), List.map_take]
  have he2' : k2 = ((pmt.descs.drop 200).map Sum.inl : List PMTItem)
      ++ pmt.streams.map Sum.inr := by
    rw [he2, hdrop, List.drop_append_of_le_length (by omega), List.map_drop,
      List.drop_drop]
    norm_num
  have he0' : k0 = (pmt.descs.take 100).map Sum.inl := by rw [he0, htake]
  refine ⟨_, by rw [serializePMT, if_pos hall], ?_, ?_,
    pmt.descs.take 100, (pmt.descs.drop 100).take 100, pmt.descs.drop 200,
    ?_, ?_⟩
  · apply mkLongSections_isValid
    · rw [hchunks]; simp
    · rw [hchunks]
      intro p hp
      simp only [List.map_cons, List.map_nil, List.mem_cons,
        List.not_mem_nil, or_false] at hp
      have hplen : ∀ k : List PMTItem, p = pmtChunkPayload pmt.pcr_pid k →
          p.length = 4 + (k.map pmtItemSize).sum := by
        intro k hk; rw [hk, pmtChunkPayload_length]
      rcases hp with h | h | h
      · rw [hplen k0 h, hk0]; simp
      · rw [hplen k1 h, hk1]; simp
      · rw [hplen k2 h, hk2]; simp
  · show (mkLongSections TID_PMT false pmt.service_id pmt.version pmt.current
      pmt.attrib ((packItems 1008 pmtItemSize (pmtItems pmt) [] 0).map
        (pmtChunkPayload pmt.pcr_pid))).map PSISection.payloadSize = _
    rw [show PSISection.payloadSize = List.length ∘ PSISection.payload from rfl,
      ← List.map_map, mkLongSections, mkSectionsAux_map_payload, hchunks]
    simp only [List.map_cons, List.map_nil, pmtChunkPayload_length, hk0, hk1, hk2]
    simp
  · have h1 : pmt.descs.take 100 ++ pmt.descs.drop 100 = pmt.descs :=
      List.take_append_drop 100 pmt.descs
    have h2 : (pmt.descs.drop 100).take 100 ++ (pmt.descs.drop 100).drop 100
        = pmt.descs.drop 100 := List.take_append_drop 100 _
    have h3 : (pmt.descs.drop 100).drop 100 = pmt.descs.drop 200 := by
      rw [List.drop_drop]
    rw [List.append_assoc, ← h3, h2, h1]
  · show (mkLongSections TID_PMT false pmt.service_id pmt.version pmt.current
      pmt.attrib ((packItems 1008 pmtItemSize (pmtItems pmt) [] 0).map
        (pmtChunkPayload pmt.pcr_pid))).map PSISection.payload = _
    rw [mkLongSections, mkSectionsAux_map_payload, hchunks]
    simp only [List.map_cons, List.map_nil]
    rw [he0', he1', he2', pmtChunkPayload_inl, pmtChunkPayload_inl,
      pmtChunkPayload_mixed]

/-- Payload of a section holding only whole stream entries (its
program_info_length is 0). -/
theorem pmtChunkPayload_inr (pcr : Nat) (es : List (Nat × PMTStream)) :
    pmtChunkPayload pcr (es.map Sum.inr)
      = pmtFixed pcr 0 ++ (es.map encStream).flatten := by
  rw [pmtChunkPayload, filterMap_sumLeft_inr, filterMap_sumRight_inr]
  simp [descListSize, encDescList]

/-- Claim C3: for every PMT containing exactly 3 program-level 10-byte
descriptors and 90 stream entries of 25 encoded bytes each, serialize
produces a valid BinaryTable of exactly 3 sections whose payload sizes
are, in section_number order, 1009, 1004 and 279 bytes, and no stream
entry is ever split between two sections: each section payload carries a
contiguous run of whole encoded stream entries. -/
theorem c3_pmt_stream_level (pmt : PMT)
    (hn : pmt.descs.length = 3) (hs : ∀ d ∈ pmt.descs, descSize d = 10)
    (hns : pmt.streams.length = 90)
    (hes : ∀ e ∈ pmt.streams, streamSize e = 25) :
    ∃ bt, serializePMT pmt = some bt ∧ bt.isValid = true ∧
      bt.sections.map PSISection.payloadSize = [1009, 1004, 279] ∧
      ∃ t0 t1 t2 : List (Nat × PMTStream), pmt.streams = t0 ++ t1 ++ t2 ∧
        bt.sections.map PSISection.payload =
          [pmtFixed pmt.pcr_pid (descListSize pmt.descs) ++
             (encDescList pmt.descs ++ (t0.map encStream).flatten),
           pmtFixed pmt.pcr_pid 0 ++ (t1.map encStream).flatten,
           pmtFixed pmt.pcr_pid 0 ++ (t2.map encStream).flatten] := by
  have hmapdesc : pmt.descs.map descSize = List.replicate 3 10 := by
    rw [List.eq_replicate_iff]
    exact ⟨by simp [hn],
      by intro b hb; obtain ⟨d, hd, rfl⟩ := List.mem_map.mp hb; exact hs d hd⟩
  have hmapstr : pmt.streams.map streamSize = List.replicate 90 25 := by
    rw [List.eq_replicate_iff]
    exact ⟨by simp [hns],
      by intro b hb; obtain ⟨e, he, rfl⟩ := List.mem_map.mp hb; exact hes e he⟩
  have hinl : (pmt.descs.map Sum.inl : List PMTItem).map pmtItemSize
      = List.replicate 3 10 := by
    rw [List.map_map, show pmtItemSize ∘ (Sum.inl : Descriptor → PMTItem)
      = descSize from rfl, hmapdesc]
  have hinr : (pmt.streams.map Sum.inr : List PMTItem).map pmtItemSize
      = List.replicate 90 25 := by
    rw [List.map_map, show pmtItemSize ∘ (Sum.inr : Nat × PMTStream → PMTItem)
      = streamSize from rfl, hmapstr]
  have hitems : (pmtItems pmt).map pmtItemSize
      = List.replicate 3 10 ++ List.replicate 90 25 := by
    rw [pmtItems, List.map_append, hinl, hinr]
  have hall : (pmtItems pmt).all (fun x => decide (pmtItemSize x ≤ 1008))
      = true := by
    rw [List.all_eq_true]
    intro x hx
    have hm : pmtItemSize x ∈ (pmtItems pmt).map pmtItemSize :=
      List.mem_map_of_mem _ hx
    rw [hitems] at hm
    simp only [List.mem_append, List.mem_replicate] at hm
    rcases hm with ⟨-, h⟩ | ⟨-, h⟩ <;> simp [h]
  have hkey : (packItems 1008 pmtItemSize (pmtItems pmt) [] 0).map
      (List.map pmtItemSize)
      = [List.replicate 3 10 ++ List.replicate 39 25,
         List.replicate 40 25, List.replicate 11 25] := by
    rw [packItems_map]
    simp only [List.map_nil]
    rw [hitems]
    decide
  obtain ⟨k0, k1, k2, hchunks⟩ :
      ∃ a b c, packItems 1008 pmtItemSize (pmtItems pmt) [] 0 = [a, b, c] := by
    have hlen3 : (packItems 1008 pmtItemSize (pmtItems pmt) [] 0).length = 3 := by
      have := congrArg List.length hkey
      simpa using this
    exact List.length_eq_three.mp hlen3
  rw [hchunks] at hkey
  simp only [List.map_cons, List.map_nil, List.cons.injEq, and_true] at hkey
  obtain ⟨hk0, hk1, hk2⟩ := hkey
  have hlen0 : k0.length = 42 := by
    have := congrArg List.length hk0; simpa using this
  have hlen1 : k1.length = 40 := by
    have := congrArg List.length hk1; simpa using this
  have hflat := packItems_join 1008 pmtItemSize (pmtItems pmt) [] 0
  rw [hchunks] at hflat
  simp only [List.reverse_nil, List.nil_append, List.flatten_cons,
    List.flatten_nil, List.append_nil] at hflat
  rw [← List.append_assoc] at hflat
  obtain ⟨he0, he1, he2⟩ := three_chunks k0 k1 k2 (pmtItems pmt) 42 40
    hflat hlen0 hlen1
  have hdlen : (pmt.descs.map Sum.inl : List PMTItem).length = 3 := by
    simp [hn]
  have htake : (pmtItems pmt).take 42
      = (pmt.descs.map Sum.inl : List PMTItem)
        ++ ((pmt.streams.take 39).map Sum.inr : List PMTItem) := by
    rw [pmtItems, List.take_append_eq_append_take,
      List.take_of_length_le (by omega), hdlen, List.map_take]
  have hdrop : (pmtItems pmt).drop 42
      = ((pmt.streams.drop 39).map Sum.inr : List PMTItem) := by
    rw [pmtItems, List.drop_append_eq_append_drop,
      List.drop_eq_nil_of_le (by omega), hdlen, List.map_drop,
      List.nil_append]
  have hslen : ((pmt.streams.drop 39).map Sum.inr : List PMTItem).length
      = 51 := by simp [hns]
  have he0' : k0 = (pmt.descs.map Sum.inl : List PMTItem)
      ++ ((pmt.streams.take 39).map Sum.inr : List PMTItem) := by
    rw [he0, htake]
  have he1' : k1 = (((pmt.streams.drop 39).take 40).map Sum.inr
      : List PMTItem) := by
    rw [he1, hdrop, List.map_take]
  have he2' : k2 = ((pmt.streams.drop 79).map Sum.inr : List PMTItem) := by
    rw [he2, hdrop, List.map_drop, List.drop_drop]
    norm_num
  refine ⟨_, by rw [serializePMT, if_pos hall], ?_, ?_,
    pmt.streams.take 39, (pmt.streams.drop 39).take 40, pmt.streams.drop 79,
    ?_, ?_⟩
  · apply mkLongSections_isValid
    · rw [hchunks]; simp
    · rw [hchunks]
      intro p hp
      simp only [List.map_cons, List.map_nil, List.mem_cons,
        List.not_mem_nil, or_false] at hp
      have hplen : ∀ k : List PMTItem, p = pmtChunkPayload pmt.pcr_pid k →
          p.length = 4 + (k.map pmtItemSize).sum := by
        intro k hk; rw [hk, pmtChunkPayload_length]
      rcases hp with h | h | h
      · rw [hplen k0 h, hk0]; simp
      · rw [hplen k1 h, hk1]; simp
      · rw [hplen k2 h, hk2]; simp
  · show (mkLongSections TID_PMT false pmt.service_id pmt.version pmt.current
      pmt.attrib ((packItems 1008 pmtItemSize (pmtItems pmt) [] 0).map
        (pmtChunkPayload pmt.pcr_pid))).map PSISection.payloadSize = _
    rw [show PSISection.payloadSize = List.length ∘ PSISection.payload from rfl,
      ← List.map_map, mkLongSections, mkSectionsAux_map_payload, hchunks]
    simp only [List.map_cons, List.map_nil, pmtChunkPayload_length,
      hk0, hk1, hk2]
    simp
  · have h1 : pmt.streams.take 39 ++ pmt.streams.drop 39 = pmt.streams :=
      List.take_append_drop 39 pmt.streams
    have h2 : (pmt.streams.drop 39).take 40 ++ (pmt.streams.drop 39).drop 40
        = pmt.streams.drop 39 := List.take_append_drop 40 _
    have h3 : (pmt.streams.drop 39).drop 40 = pmt.streams.drop 79 := by
      rw [List.drop_drop]
    rw [List.append_assoc, ← h3, h2, h1]
  · show (mkLongSections TID_PMT false pmt.service_id pmt.version pmt.current
      pmt.attrib ((packItems 1008 pmtItemSize (pmtItems pmt) [] 0).map
        (pmtChunkPayload pmt.pcr_pid))).map PSISection.payload = _
    rw [mkLongSections, mkSectionsAux_map_payload, hchunks]
    simp only [List.map_cons, List.map_nil]
    rw [he0', he1', he2', pmtChunkPayload_mixed, pmtChunkPayload_inr,
      pmtChunkPayload_inr]

/-- A concrete stream entry of encoded size 15 (one 10-byte descriptor). -/
def streamC2 : Nat × PMTStream := (100, ⟨0xAB, [caDesc10 808]⟩)

/-- The PMT of the program-level multi-section test. -/
def pmtC2 : PMT :=
  ⟨0, true, 0x5678, 0x1234, (List.range 202).map caDesc10, [streamC2], ""⟩

theorem c2_pmt_program_level_witness :
    (pmtC2.descs.length = 202 ∧ (∀ d ∈ pmtC2.descs, descSize d = 10) ∧
      pmtC2.streams.map streamSize = [15]) ∧
    (∃ bt, serializePMT pmtC2 = some bt ∧ bt.isValid = true ∧
      bt.sections.map PSISection.payloadSize = [1004, 1004, 39] ∧
      ∃ g0 g1 g2 : List Descriptor, pmtC2.descs = g0 ++ g1 ++ g2 ∧
        bt.sections.map PSISection.payload =
          [pmtFixed pmtC2.pcr_pid (descListSize g0) ++ encDescList g0,
           pmtFixed pmtC2.pcr_pid (descListSize g1) ++ encDescList g1,
           pmtFixed pmtC2.pcr_pid (descListSize g2) ++ (encDescList g2 ++
             (pmtC2.streams.map encStream).flatten)]) :=
  ⟨⟨by decide, by decide, by decide⟩,
   c2_pmt_program_level pmtC2 (by decide) (by decide) (by decide)⟩

/-- A concrete stream entry of encoded size 25 (two 10-byte descriptors). -/
def streamC3 (k : Nat) : Nat × PMTStream :=
  (50 + k, ⟨k % 256, [caDesc10 (12 + 8 * k), caDesc10 (16 + 8 * k)]⟩)

/-- The PMT of the stream-level multi-section test. -/
def pmtC3 : PMT :=
  ⟨0, true, 0x5678, 0x1234, (List.range 3).map caDesc10,
   (List.range 90).map streamC3, ""⟩

theorem c3_pmt_stream_level_witness :
    (pmtC3.descs.length = 3 ∧ (∀ d ∈ pmtC3.descs, descSize d = 10) ∧
      pmtC3.streams.length = 90 ∧ (∀ e ∈ pmtC3.streams, streamSize e = 25)) ∧
    (∃ bt, serializePMT pmtC3 = some bt ∧ bt.isValid = true ∧
      bt.sections.map PSISection.payloadSize = [1009, 1004, 279] ∧
      ∃ t0 t1 t2 : List (Nat × PMTStream), pmtC3.streams = t0 ++ t1 ++ t2 ∧
        bt.sections.map PSISection.payload =
          [pmtFixed pmtC3.pcr_pid (descListSize pmtC3.descs) ++
             (encDescList pmtC3.descs ++ (t0.map encStream).flatten),
           pmtFixed pmtC3.pcr_pid 0 ++ (t1.map encStream).flatten,
           pmtFixed pmtC3.pcr_pid 0 ++ (t2.map encStream).flatten]) :=
  ⟨⟨by decide, by decide, by decide, by decide⟩,
   c3_pmt_stream_level pmtC3 (by decide) (by decide) (by decide) (by decide)⟩

/-- Decoding a 12-bit length field from its two wire bytes. -/
theorem hi12_decode (n : Nat) (h : n ≤ 4095) :
    (hi12 n) % 16 * 256 + n % 256 = n := by
  rw [hi12]; omega

/-- Decoding a 13-bit PID field from its two wire bytes. -/
theorem hi13_decode (n : Nat) (h : n ≤ 8191) :
    (hi13 n) % 32 * 256 + n % 256 = n := by
  rw [hi13]; omega

/-- Modelled from the spec: tag-length-value parsing of a descriptor loop
(spec section 4.2 fromWire); `InvalidLength` (`none`) when the buffer ends
inside a declared field.  The fuel argument bounds the recursion. -/
def parseDescsF : Nat → List Nat → Option (List Descriptor)
  | _, [] => some []
  | f + 1, t :: n :: rest =>
    if n ≤ rest.length then
      match parseDescsF f (rest.drop n) with
      | some ds => some (⟨t, rest.take n⟩ :: ds)
      | none => none
    else none
  | _, _ => none

/-- Parse a whole byte run as a descriptor loop. -/
def parseDescs (bs : List Nat) : Option (List Descriptor) :=
  parseDescsF bs.length bs

theorem encDescList_cons (d : Descriptor) (ds : List Descriptor) :
    encDescList (d :: ds)
      = d.tag % 256 :: d.payload.length % 256 :: (d.payload ++ encDescList ds) := by
  simp [encDescList, encDesc]

theorem length_le_descListSize (ds : List Descriptor) :
    ds.length ≤ descListSize ds := by
  induction ds with
  | nil => simp [descListSize]
  | cons d ds ih =>
    simp only [descListSize, List.map_cons, List.sum_cons, List.length_cons] at *
    simp [descSize]
    omega

/-- Round trip of the descriptor loop: parsing the encoding of a
well-formed descriptor list recovers it. -/
theorem parseDescsF_enc :
    ∀ (ds : List Descriptor) (fuel : Nat), (∀ d ∈ ds, d.wf) →
      ds.length ≤ fuel → parseDescsF fuel (encDescList ds) = some ds := by
  intro ds
  induction ds with
  | nil =>
    intro fuel _ _
    show parseDescsF fuel [] = some []
    cases fuel <;> rfl
  | cons d ds ih =>
    intro fuel hwf hfuel
    obtain ⟨f, rfl⟩ : ∃ f, fuel = f + 1 := by
      cases fuel with
      | zero => simp only [List.length_cons] at hfuel; omega
      | succ f => exact ⟨f, rfl⟩
    obtain ⟨htag, hlen⟩ := hwf d (List.mem_cons_self d ds)
    rw [encDescList_cons]
    have hmod : d.payload.length % 256 = d.payload.length := Nat.mod_eq_of_lt (by omega)
    show (if d.payload.length % 256 ≤ (d.payload ++ encDescList ds).length then _ else none) = _
    rw [hmod]
    rw [if_pos (by simp)]
    rw [List.take_left' rfl, List.drop_left' rfl]
    rw [ih f (fun x hx => hwf x (List.mem_cons_of_mem _ hx)) (by simpa using hfuel)]
    have : (⟨d.tag % 256, d.payload⟩ : Descriptor) = d := by
      have : d.tag % 256 = d.tag := Nat.mod_eq_of_lt (by omega)
      rw [this]
    rw [this]

/-- Parsing the exact encoding of a well-formed descriptor list. -/
theorem parseDescs_enc (ds : List Descriptor) (hwf : ∀ d ∈ ds, d.wf) :
    parseDescs (encDescList ds) = some ds := by
  apply parseDescsF_enc ds _ hwf
  rw [length_encDescList]
  exact length_le_descListSize ds

/-- Parse and concatenate the descriptor loops of a run of sections
(CAT deserialization walks sections in order, spec section 4.5). -/
def parseAllDescs : List PSISection → Option (List Descriptor)
  | [] => some []
  | s :: rest =>
    match parseDescs s.payload, parseAllDescs rest with
    | some ds, some more => some (ds ++ more)
    | _, _ => none

/-- Modelled from the spec: CAT deserialization: checks the table id,
concatenates the per-section descriptor loops, and copies the fixed
fields out of the first section (spec section 4.5). -/
def deserializeCAT (bt : BinaryTable) : Option CAT :=
  match bt.sections with
  | [] => none
  | s0 :: _ =>
    if s0.table_id == TID_CAT && s0.long then
      (parseAllDescs bt.sections).map fun ds =>
        ⟨s0.version, s0.current, ds, bt.attrib⟩
    else none

theorem parseAllDescs_mkSections (tid : Nat) (pr : Bool) (ext ver : Nat)
    (cur : Bool) (at_tr : String) (last : Nat) :
    ∀ (chunks : List (List Descriptor)) (i : Nat),
      (∀ c ∈ chunks, ∀ d ∈ c, d.wf) →
      parseAllDescs
        (mkSectionsAux tid pr ext ver cur at_tr last i (chunks.map encDescList))
        = some chunks.flatten := by
  intro chunks
  induction chunks with
  | nil => intro i _; rfl
  | cons c cs ih =>
    intro i hwf
    simp only [List.map_cons, mkSectionsAux, parseAllDescs]
    rw [parseDescs_enc c (hwf c (List.mem_cons_self c cs)),
      ih (i + 1) (fun x hx => hwf x (List.mem_cons_of_mem _ hx))]
    simp

/-- CAT half of the typed round trip: deserializing the serialization of
any well-formed CAT recovers it exactly. -/
theorem deserializeCAT_serializeCAT (cat : CAT)
    (hwf : ∀ d ∈ cat.descs, d.wf ∧ descSize d ≤ 1012) :
    ∃ bt, serializeCAT cat = some bt ∧ deserializeCAT bt = some cat := by
  have hall : cat.descs.all (fun d => decide (descSize d ≤ 1012)) = true := by
    rw [List.all_eq_true]
    intro d hd
    simp [(hwf d hd).2]
  refine ⟨_, by rw [serializeCAT, if_pos hall], ?_⟩
  obtain ⟨c, cs, hchunks⟩ :=
    List.exists_cons_of_ne_nil (packItems_ne_nil 1012 descSize cat.descs [] 0)
  have hmem : ∀ k ∈ packItems 1012 descSize cat.descs [] 0, ∀ d ∈ k, d.wf :=
    fun k hk d hd => (hwf d (packItems_mem 1012 descSize cat.descs k hk d hd)).1
  have hparse := parseAllDescs_mkSections TID_CAT false 0xFFFF cat.version
    cat.current cat.attrib
    (((packItems 1012 descSize cat.descs [] 0).map encDescList).length - 1)
    (packItems 1012 descSize cat.descs [] 0) 0 hmem
  have hflat := packItems_join 1012 descSize cat.descs [] 0
  simp only [List.reverse_nil, List.nil_append] at hflat
  rw [hflat] at hparse
  show deserializeCAT ⟨cat.attrib, mkLongSections TID_CAT false 0xFFFF
    cat.version cat.current cat.attrib
    ((packItems 1012 descSize cat.descs [] 0).map encDescList)⟩ = some cat
  rw [mkLongSections]
  rw [hchunks] at hparse ⊢
  simp only [List.map_cons, mkSectionsAux] at hparse ⊢
  rw [deserializeCAT]
  simp only []
  rw [if_pos (by simp [TID_CAT])]
  rw [hparse]
  rfl

/-- Modelled from the spec: parsing of the PMT stream loops: stream_type,
13-bit elementary PID, 12-bit es_info_length, then that many bytes of
descriptors (spec section 4.5); `none` on a truncated entry. -/
def parseStreamsF : Nat → List Nat → Option (List (Nat × PMTStream))
  | _, [] => some []
  | f + 1, st :: p1 :: p2 :: l1 :: l2 :: rest =>
    if (l1 % 16) * 256 + l2 ≤ rest.length then
      match parseDescs (rest.take ((l1 % 16) * 256 + l2)),
            parseStreamsF f (rest.drop ((l1 % 16) * 256 + l2)) with
      | some ds, some more =>
        some (((p1 % 32) * 256 + p2, ⟨st, ds⟩) :: more)
      | _, _ => none
    else none
  | _, _ => none

/-- Modelled from the spec: parsing of one PMT section payload: the 4-byte
fixed part (13-bit PCR PID, 12-bit program_info_length), the program-level
descriptors of this section, then its stream loops (spec section 4.5). -/
def parsePMTSectionPayload (bs : List Nat) :
    Option (Nat × List Descriptor × List (Nat × PMTStream)) :=
  match bs with
  | b0 :: b1 :: b2 :: b3 :: rest =>
    if (b2 % 16) * 256 + b3 ≤ rest.length then
      match parseDescs (rest.take ((b2 % 16) * 256 + b3)),
            parseStreamsF rest.length (rest.drop ((b2 % 16) * 256 + b3)) with
      | some ds, some es => some ((b0 % 32) * 256 + b1, ds, es)
      | _, _ => none
    else none
  | _ => none

/-- Parse a run of PMT sections, concatenating the program-level
descriptor lists and the stream lists in section order (the PCR PID is
taken from the last section). -/
def parseAllPMT :
    List PSISection → Option (Nat × List Descriptor × List (Nat × PMTStream))
  | [] => none
  | [s] => parsePMTSectionPayload s.payload
  | s :: rest =>
    match parsePMTSectionPayload s.payload, parseAllPMT rest with
    | some (_, ds, es), some (pcr, ds2, es2) => some (pcr, ds ++ ds2, es ++ es2)
    | _, _ => none

/-- Modelled from the spec: PMT deserialization: checks the table id,
walks sections in order concatenating the program loop and the stream
loops, and copies the fixed fields out (spec section 4.5). -/
def deserializePMT (bt : BinaryTable) : Option PMT :=
  match bt.sections with
  | [] => none
  | s0 :: _ =>
    if s0.table_id == TID_PMT && s0.long then
      (parseAllPMT bt.sections).map fun r =>
        ⟨s0.version, s0.current, s0.table_id_ext, r.1, r.2.1, r.2.2, bt.attrib⟩
    else none

/-- Well-formedness of a PMT body unit: its wire fields fit their widths. -/
def pmtItemWf : PMTItem → Prop
  | Sum.inl d => d.wf
  | Sum.inr e => e.1 ≤ 8191 ∧ e.2.stream_type ≤ 255 ∧
      descListSize e.2.descs ≤ 4095 ∧ ∀ d ∈ e.2.descs, d.wf

theorem mem_of_filterMap_sumLeft {chunk : List PMTItem} {d : Descriptor}
    (h : d ∈ chunk.filterMap sumLeft) : Sum.inl d ∈ chunk := by
  obtain ⟨x, hx, hxd⟩ := List.mem_filterMap.mp h
  cases x with
  | inl a =>
    obtain rfl : a = d := by simpa [sumLeft] using hxd
    exact hx
  | inr e => simp [sumLeft] at hxd

theorem mem_of_filterMap_sumRight {chunk : List PMTItem}
    {e : Nat × PMTStream} (h : e ∈ chunk.filterMap sumRight) :
    Sum.inr e ∈ chunk := by
  obtain ⟨x, hx, hxe⟩ := List.mem_filterMap.mp h
  cases x with
  | inl a => simp [sumRight] at hxe
  | inr b =>
    obtain rfl : b = e := by simpa [sumRight] using hxe
    exact hx

theorem length_le_flatten_encStream (es : List (Nat × PMTStream)) :
    es.length ≤ ((es.map encStream).flatten).length := by
  induction es with
  | nil => simp
  | cons e es ih =>
    simp only [List.map_cons, List.flatten_cons, List.length_append,
      List.length_cons]
    have : 1 ≤ (encStream e).length := by
      rw [length_encStream, streamSize]
      omega
    omega

/-- Round trip of the stream loops: parsing the concatenated encodings of
well-formed stream entries recovers them. -/
theorem parseStreamsF_enc :
    ∀ (es : List (Nat × PMTStream)) (fuel : Nat),
      (∀ e ∈ es, pmtItemWf (Sum.inr e)) → es.length ≤ fuel →
      parseStreamsF fuel ((es.map encStream).flatten) = some es := by
  intro es
  induction es with
  | nil =>
    intro fuel _ _
    show parseStreamsF fuel [] = some []
    cases fuel <;> rfl
  | cons e es ih =>
    intro fuel hwf hfuel
    obtain ⟨f, rfl⟩ : ∃ f, fuel = f + 1 := by
      cases fuel with
      | zero => simp only [List.length_cons] at hfuel; omega
      | succ f => exact ⟨f, rfl⟩
    obtain ⟨hpid, hst, hdls, hdwf⟩ := hwf e (List.mem_cons_self e es)
    have henc : (((e :: es).map encStream).flatten)
        = e.2.stream_type % 256 :: hi13 e.1 :: e.1 % 256 ::
          hi12 (descListSize e.2.descs) :: descListSize e.2.descs % 256 ::
          (encDescList e.2.descs ++ ((es.map encStream).flatten)) := by
      simp [encStream]
    rw [henc]
    show (if (hi12 (descListSize e.2.descs)) % 16 * 256 +
        descListSize e.2.descs % 256 ≤
        (encDescList e.2.descs ++ (es.map encStream).flatten).length
      then _ else none) = _
    rw [hi12_decode _ hdls,
      if_pos (by rw [List.length_append, length_encDescList]; omega),
      List.take_left' (length_encDescList _),
      List.drop_left' (length_encDescList _),
      parseDescs_enc _ hdwf,
      ih f (fun x hx => hwf x (List.mem_cons_of_mem _ hx))
        (by simpa using hfuel)]
    rw [hi13_decode _ hpid, Nat.mod_eq_of_lt (show e.2.stream_type < 256 by omega)]

/-- Round trip of one PMT section payload built from a chunk of body
units: parsing recovers the PCR PID, the chunk's program-level
descriptors and its stream entries. -/
theorem parsePMTSection_chunk (pcr : Nat) (chunk : List PMTItem)
    (hpcr : pcr ≤ 8191)
    (hdls : descListSize (chunk.filterMap sumLeft) ≤ 4095)
    (hwf : ∀ x ∈ chunk, pmtItemWf x) :
    parsePMTSectionPayload (pmtChunkPayload pcr chunk)
      = some (pcr, chunk.filterMap sumLeft, chunk.filterMap sumRight) := by
  have hdwf : ∀ d ∈ chunk.filterMap sumLeft, d.wf := by
    intro d hd
    have := hwf _ (mem_of_filterMap_sumLeft hd)
    exact this
  have hswf : ∀ e ∈ chunk.filterMap sumRight, pmtItemWf (Sum.inr e) := by
    intro e he
    exact hwf _ (mem_of_filterMap_sumRight he)
  have henc : pmtChunkPayload pcr chunk
      = hi13 pcr :: pcr % 256 ::
        hi12 (descListSize (chunk.filterMap sumLeft)) ::
        descListSize (chunk.filterMap sumLeft) % 256 ::
        (encDescList (chunk.filterMap sumLeft) ++
          (((chunk.filterMap sumRight).map encStream).flatten)) := by
    simp [pmtChunkPayload, pmtFixed]
  rw [henc]
  show (if (hi12 (descListSize (chunk.filterMap sumLeft))) % 16 * 256 +
      descListSize (chunk.filterMap sumLeft) % 256 ≤
      (encDescList (chunk.filterMap sumLeft) ++
        ((chunk.filterMap sumRight).map encStream).flatten).length
    then _ else none) = _
  rw [hi12_decode _ hdls,
    if_pos (by rw [List.length_append, length_encDescList]; omega),
    List.take_left' (length_encDescList _),
    List.drop_left' (length_encDescList _),
    parseDescs_enc _ hdwf,
    parseStreamsF_enc (chunk.filterMap sumRight) _ hswf
      (by rw [List.length_append, length_encDescList]
          have := length_le_flatten_encStream (chunk.filterMap sumRight)
          omega),
    hi13_decode _ hpcr]

/-- Round trip across the sections of a serialized PMT: parsing them in
order recovers the PCR PID and the concatenated loops. -/
theorem parseAllPMT_mkSections (pcr tid : Nat) (pr : Bool) (ext ver : Nat)
    (cur : Bool) (at_tr : String) (last : Nat) (hpcr : pcr ≤ 8191) :
    ∀ (chunks : List (List PMTItem)) (i : Nat),
      (∀ c ∈ chunks, descListSize (c.filterMap sumLeft) ≤ 4095 ∧
        ∀ x ∈ c, pmtItemWf x) →
      chunks ≠ [] →
      parseAllPMT
        (mkSectionsAux tid pr ext ver cur at_tr last i
          (chunks.map (pmtChunkPayload pcr)))
        = some (pcr, chunks.flatten.filterMap sumLeft,
            chunks.flatten.filterMap sumRight) := by
  intro chunks
  induction chunks with
  | nil => intro i _ h; exact absurd rfl h
  | cons c cs ih =>
    intro i hwf _
    cases cs with
    | nil =>
      simp only [List.map_cons, List.map_nil, mkSectionsAux, parseAllPMT]
      rw [parsePMTSection_chunk pcr c hpcr
        (hwf c (List.mem_cons_self _ _)).1 (hwf c (List.mem_cons_self _ _)).2]
      simp
    | cons c' cs' =>
      simp only [List.map_cons, mkSectionsAux, parseAllPMT]
      rw [parsePMTSection_chunk pcr c hpcr
        (hwf c (List.mem_cons_self _ _)).1 (hwf c (List.mem_cons_self _ _)).2]
      have := ih (i + 1) (fun x hx => hwf x (List.mem_cons_of_mem _ hx))
        (by simp)
      simp only [List.map_cons, mkSectionsAux] at this
      rw [this]
      simp [List.filterMap_append]

/-- Well-formedness of a PMT: all wire fields fit their declared widths
and every atomic body unit fits the 1008-byte section budget. -/
def PMT.wf (pmt : PMT) : Prop :=
  pmt.pcr_pid ≤ 8191 ∧ (∀ d ∈ pmt.descs, d.wf ∧ descSize d ≤ 1008) ∧
  ∀ e ∈ pmt.streams, e.1 ≤ 8191 ∧ e.2.stream_type ≤ 255 ∧
    (∀ d ∈ e.2.descs, d.wf) ∧ streamSize e ≤ 1008

/-- PMT half of the typed round trip: deserializing the serialization of
any well-formed PMT recovers it exactly. -/
theorem deserializePMT_serializePMT (pmt : PMT) (hwf : pmt.wf) :
    ∃ bt, serializePMT pmt = some bt ∧ deserializePMT bt = some pmt := by
  obtain ⟨hpcr, hdesc, hstr⟩ := hwf
  have hitemwf : ∀ x ∈ pmtItems pmt, pmtItemWf x := by
    intro x hx
    rcases List.mem_append.mp hx with hx | hx
    · obtain ⟨d, hd, rfl⟩ := List.mem_map.mp hx
      exact (hdesc d hd).1
    · obtain ⟨e, he, rfl⟩ := List.mem_map.mp hx
      obtain ⟨h1, h2, h3, h4⟩ := hstr e he
      have : descListSize e.2.descs ≤ 4095 := by
        have := h4
        rw [streamSize] at this
        omega
      exact ⟨h1, h2, this, h3⟩
  have hitemsz : ∀ x ∈ pmtItems pmt, pmtItemSize x ≤ 1008 := by
    intro x hx
    rcases List.mem_append.mp hx with hx | hx
    · obtain ⟨d, hd, rfl⟩ := List.mem_map.mp hx
      exact (hdesc d hd).2
    · obtain ⟨e, he, rfl⟩ := List.mem_map.mp hx
      exact (hstr e he).2.2.2
  have hall : (pmtItems pmt).all (fun x => decide (pmtItemSize x ≤ 1008))
      = true := by
    rw [List.all_eq_true]
    intro x hx
    simp [hitemsz x hx]
  refine ⟨_, by rw [serializePMT, if_pos hall], ?_⟩
  have hchunkswf : ∀ c ∈ packItems 1008 pmtItemSize (pmtItems pmt) [] 0,
      descListSize (c.filterMap sumLeft) ≤ 4095 ∧ ∀ x ∈ c, pmtItemWf x := by
    intro c hc
    constructor
    · have hsum := packItems_sum_le 1008 pmtItemSize (pmtItems pmt) [] 0
        hitemsz (by omega) rfl c hc
      have hsplit := chunk_sum_split c
      omega
    · intro x hx
      exact hitemwf x (packItems_mem 1008 pmtItemSize (pmtItems pmt) c hc x hx)
  have hparse := parseAllPMT_mkSections pmt.pcr_pid TID_PMT false
    pmt.service_id pmt.version pmt.current pmt.attrib
    (((packItems 1008 pmtItemSize (pmtItems pmt) [] 0).map
      (pmtChunkPayload pmt.pcr_pid)).length - 1) hpcr
    (packItems 1008 pmtItemSize (pmtItems pmt) [] 0) 0 hchunkswf
    (packItems_ne_nil 1008 pmtItemSize (pmtItems pmt) [] 0)
  have hflat := packItems_join 1008 pmtItemSize (pmtItems pmt) [] 0
  simp only [List.reverse_nil, List.nil_append] at hflat
  rw [hflat] at hparse
  have hleft : (pmtItems pmt).filterMap sumLeft = pmt.descs := by
    rw [pmtItems, List.filterMap_append, filterMap_sumLeft_inl,
      filterMap_sumLeft_inr, List.append_nil]
  have hright : (pmtItems pmt).filterMap sumRight = pmt.streams := by
    rw [pmtItems, List.filterMap_append, filterMap_sumRight_inl,
      filterMap_sumRight_inr, List.nil_append]
  rw [hleft, hright] at hparse
  obtain ⟨c, cs, hchunks⟩ := List.exists_cons_of_ne_nil
    (packItems_ne_nil 1008 pmtItemSize (pmtItems pmt) [] 0)
  show deserializePMT ⟨pmt.attrib, mkLongSections TID_PMT false pmt.service_id
    pmt.version pmt.current pmt.attrib
    ((packItems 1008 pmtItemSize (pmtItems pmt) [] 0).map
      (pmtChunkPayload pmt.pcr_pid))⟩ = some pmt
  rw [mkLongSections]
  rw [hchunks] at hparse ⊢
  simp only [List.map_cons, mkSectionsAux] at hparse ⊢
  rw [deserializePMT]
  simp only []
  rw [if_pos (by simp [TID_PMT])]
  rw [hparse]
  rfl

instance (pmt : PMT) : Decidable pmt.wf :=
  inferInstanceAs (Decidable (pmt.pcr_pid ≤ 8191 ∧
    (∀ d ∈ pmt.descs, d.wf ∧ descSize d ≤ 1008) ∧
    ∀ e ∈ pmt.streams, e.1 ≤ 8191 ∧ e.2.stream_type ≤ 255 ∧
      (∀ d ∈ e.2.descs, d.wf) ∧ streamSize e ≤ 1008))

/-- Claim C4: for every concrete typed table (here the CAT and the PMT,
in particular the CAT with 300 descriptors and the PMT with 90 stream
entries of the test), deserializing the BinaryTable produced by
serializing it yields a typed table equal to it: the same fixed fields
and all descriptors and stream entries recovered with their contents and
original order preserved. -/
theorem c4_typed_fixed_point :
    (∀ cat : CAT, (∀ d ∈ cat.descs, d.wf ∧ descSize d ≤ 1012) →
      ∃ bt, serializeCAT cat = some bt ∧ deserializeCAT bt = some cat) ∧
    (∀ pmt : PMT, pmt.wf →
      ∃ bt, serializePMT pmt = some bt ∧ deserializePMT bt = some pmt) :=
  ⟨deserializeCAT_serializeCAT, deserializePMT_serializePMT⟩

theorem c4_typed_fixed_point_witness :
    ((∀ d ∈ catC1.descs, d.wf ∧ descSize d ≤ 1012) ∧
      ∃ bt, serializeCAT catC1 = some bt ∧ deserializeCAT bt = some catC1) ∧
    (pmtC3.wf ∧
      ∃ bt, serializePMT pmtC3 = some bt ∧ deserializePMT bt = some pmtC3) :=
  ⟨⟨by decide, c4_typed_fixed_point.1 catC1 (by decide)⟩,
   ⟨by decide, c4_typed_fixed_point.2 pmtC3 (by decide)⟩⟩

/-- Table id of the PAT. -/
def TID_PAT : Nat := 0

/-- The null PID (absence marker for the NIT PID). -/
def PID_NULL : Nat := 0x1FFF

/-- The default NIT PID. -/
def PID_NIT : Nat := 0x10

/-- Modelled from the spec: the Program Association Table: transport
stream id (the table id extension), NIT PID, and the ordered
program_number → PMT PID mapping (spec sections 3 and 4.5). -/
structure PAT where
  version : Nat
  current : Bool
  ts_id : Nat
  nit_pid : Nat
  pmts : List (Nat × Nat)
  attrib : String
deriving DecidableEq

/-- Wire encoding of one 4-byte PAT record (program_number, PID). -/
def encPatRecord (r : Nat × Nat) : List Nat :=
  [(r.1 / 256) % 256, r.1 % 256, hi13 r.2, r.2 % 256]

/-- The records of a PAT body: the NIT PID as program 0 first (when
present), then the programs (spec section 4.5: the program with
program_number=0 maps to nit_pid). -/
def patRecords (p : PAT) : List (Nat × Nat) :=
  (if p.nit_pid = PID_NULL then [] else [(0, p.nit_pid)]) ++ p.pmts

/-- Modelled from the spec: PAT serialization (spec section 4.6): each
4-byte program record is atomic, the payload budget per long section is
1012 bytes.  A record always fits, so serialization cannot fail. -/
def serializePAT (p : PAT) : BinaryTable :=
  ⟨p.attrib, mkLongSections TID_PAT false p.ts_id p.version p.current p.attrib
    ((packItems 1012 (fun _ => 4) (patRecords p) [] 0).map
      (fun c => (c.map encPatRecord).flatten))⟩

/-- Parse a PAT section payload as a run of 4-byte records. -/
def parsePatRecsF : Nat → List Nat → Option (List (Nat × Nat))
  | _, [] => some []
  | f + 1, a :: b :: c :: d :: rest =>
    match parsePatRecsF f rest with
    | some recs => some ((a * 256 + b, (c % 32) * 256 + d) :: recs)
    | none => none
  | _, _ => none

/-- Parse and concatenate the records of a run of PAT sections. -/
def parseAllPatRecs : List PSISection → Option (List (Nat × Nat))
  | [] => some []
  | s :: rest =>
    match parsePatRecsF s.payload.length s.payload, parseAllPatRecs rest with
    | some recs, some more => some (recs ++ more)
    | _, _ => none

/-- The NIT PID carried by a record list: the last program-0 record wins;
`acc` is the value so far. -/
def lastNit : List (Nat × Nat) → Nat → Nat
  | [], acc => acc
  | r :: rest, acc => lastNit rest (if r.1 == 0 then r.2 else acc)

/-- Modelled from the spec: PAT deserialization: program 0 sets nit_pid,
every other record joins the program map in order (spec section 4.5). -/
def deserializePAT (bt : BinaryTable) : Option PAT :=
  match bt.sections with
  | [] => none
  | s0 :: _ =>
    if s0.table_id == TID_PAT && s0.long then
      (parseAllPatRecs bt.sections).map fun recs =>
        ⟨s0.version, s0.current, s0.table_id_ext,
         lastNit recs PID_NULL,
         recs.filter (fun r => decide (r.1 ≠ 0)), bt.attrib⟩
    else none

/-- Modelled from the spec: the `<PAT>` XML element (spec sections 4.7
and 8 S1): version/current attributes, transport_stream_id, network_PID,
one `<service>` child per program, and the optional metadata attribute. -/
structure XmlPAT where
  metadataAttr : String
  version : Nat
  current : Bool
  ts_id : Nat
  nit_pid : Nat
  services : List (Nat × Nat)
deriving DecidableEq

/-- Emission of a PAT to its XML element (spec section 4.7). -/
def PAT.toXml (p : PAT) : XmlPAT :=
  ⟨p.attrib, p.version, p.current, p.ts_id, p.nit_pid, p.pmts⟩

/-- Construction of a PAT from its XML element (spec section 4.7). -/
def PAT.fromXml (x : XmlPAT) : PAT :=
  ⟨x.version, x.current, x.ts_id, x.nit_pid, x.services, x.metadataAttr⟩

/-- The PAT of scenario S1: version 7, current, ts_id 0x1234, programs
3..305 mapped to PIDs 5..307, default NIT PID. -/
def patC5 : PAT :=
  ⟨7, true, 0x1234, PID_NIT, (List.range 303).map (fun i => (i + 3, i + 5)), ""⟩

/-- Claim C5: the PAT built with version=7, current=true, ts_id=0x1234 and
programs 3..305 mapped to PIDs 5..307 serializes to a valid BinaryTable of
exactly 2 sections; reloading through the binary path (deserialize of the
serialized table) and through the XML path (rebuild from the emitted XML
element, then serialize and deserialize) each reconstruct the original
table, and both reconstructed PATs have nit_pid = 0x10. -/
theorem c5_pat_build :
    (serializePAT patC5).isValid = true ∧
    (serializePAT patC5).sectionCount = 2 ∧
    deserializePAT (serializePAT patC5) = some patC5 ∧
    serializePAT (PAT.fromXml (PAT.toXml patC5)) = serializePAT patC5 ∧
    deserializePAT (serializePAT (PAT.fromXml (PAT.toXml patC5)))
      = some patC5 ∧
    patC5.nit_pid = 0x10 :=
  ⟨by decide, by decide, by decide, rfl, by decide, rfl⟩

/-- Modelled from the spec: a SectionFile holds an ordered list of
complete binary tables and an ordered list of orphan sections not yet
assembled into a complete table (spec sections 3 and 4.8). -/
structure SectionFile where
  tables : List BinaryTable
  orphans : List PSISection
deriving DecidableEq

/-- Every section of every table, plus the orphans (spec section 4.8:
`sections()` includes every section of every table plus orphans). -/
def SectionFile.sections (f : SectionFile) : List PSISection :=
  (f.tables.map BinaryTable.sections).flatten ++ f.orphans

/-- The add(BinaryTable) operation: append a complete table (spec section 4.8). -/
def SectionFile.addTable (f : SectionFile) (bt : BinaryTable) : SectionFile :=
  ⟨f.tables ++ [bt], f.orphans⟩

/-- Two sections belong to the same table instance when their
(table_id, table_id_extension, version) agree (spec section 3). -/
def sameTableKey (a b : PSISection) : Bool :=
  a.table_id == b.table_id && a.table_id_ext == b.table_id_ext &&
  a.version == b.version

/-- Insertion into a list ordered by section number. -/
def insertBySecNo (s : PSISection) : List PSISection → List PSISection
  | [] => [s]
  | t :: rest =>
    if s.section_number ≤ t.section_number then s :: t :: rest
    else t :: insertBySecNo s rest

/-- Insertion sort by section number. -/
def sortBySecNo : List PSISection → List PSISection
  | [] => []
  | s :: rest => insertBySecNo s (sortBySecNo rest)

/-- A set of matching sections is complete when all section numbers
0..last_section_number are present (spec section 3: once
last_section_number+1 sections are present, the table is promoted). -/
def completeSet (mates : List PSISection) : Bool :=
  match mates with
  | [] => false
  | m :: _ =>
    (List.range (m.last_section_number + 1)).all
      (fun i => mates.any (fun s => s.section_number == i))

/-- Modelled from the spec: `add(Section)`: the section joins the orphans
matching its (table_id, table_id_extension, version); once the set is
complete it is promoted from the orphans into a new table
(spec sections 3 and 4.8). -/
def SectionFile.addSection (f : SectionFile) (s : PSISection) : SectionFile :=
  if completeSet ((f.orphans ++ [s]).filter (sameTableKey s)) then
    ⟨f.tables ++
      [⟨"", sortBySecNo ((f.orphans ++ [s]).filter (sameTableKey s))⟩],
     (f.orphans ++ [s]).filter (fun x => ! sameTableKey s x)⟩
  else ⟨f.tables, f.orphans ++ [s]⟩

/-- Claim C6: on a SectionFile with no pending orphans, adding section 0
of a 2-section long table leaves that fragment as one orphan (the
incomplete table counted alongside), with `sections()` counting every
section of every complete table plus the orphan; then adding section 1
promotes the pair into one additional complete table, leaving zero
orphans. -/
theorem c6_orphan_promotion (f : SectionFile) (s0 s1 : PSISection)
    (hor : f.orphans = [])
    (h0 : s0.section_number = 0) (h1 : s1.section_number = 1)
    (hl0 : s0.last_section_number = 1) (hl1 : s1.last_section_number = 1)
    (htid : s1.table_id = s0.table_id)
    (hext : s1.table_id_ext = s0.table_id_ext)
    (hver : s1.version = s0.version) :
    ((f.addSection s0).orphans = [s0] ∧
     (f.addSection s0).tables = f.tables ∧
     (f.addSection s0).sections.length = f.sections.length + 1) ∧
    (((f.addSection s0).addSection s1).tables
        = f.tables ++ [⟨"", [s0, s1]⟩] ∧
     ((f.addSection s0).addSection s1).orphans = []) := by
  have hr2 : List.range 2 = [0, 1] := rfl
  have hkey00 : sameTableKey s0 s0 = true := by simp [sameTableKey]
  have hkey10 : sameTableKey s1 s0 = true := by
    simp [sameTableKey, htid, hext, hver]
  have hkey11 : sameTableKey s1 s1 = true := by simp [sameTableKey]
  have hfilter0 : List.filter (sameTableKey s0) [s0] = [s0] := by
    simp [List.filter_cons, hkey00]
  have hfilter10 : List.filter (sameTableKey s1) [s0, s1] = [s0, s1] := by
    simp [List.filter_cons, hkey10, hkey11]
  have hfilterneg : List.filter (fun x => ! sameTableKey s1 x) [s0, s1]
      = [] := by
    simp [List.filter_cons, hkey10, hkey11]
  have hincomplete : completeSet [s0] = false := by
    simp [completeSet, hl0, hr2, h0]
  have hcomplete : completeSet [s0, s1] = true := by
    simp [completeSet, hl0, hr2, h0, h1]
  have hsort : sortBySecNo [s0, s1] = [s0, s1] := by
    simp [sortBySecNo, insertBySecNo, h0, h1]
  have hstep1 : f.addSection s0 = ⟨f.tables, [s0]⟩ := by
    rw [SectionFile.addSection, hor]
    simp only [List.nil_append, hfilter0]
    rw [if_neg (by simp [hincomplete])]
  have hstep2 : (f.addSection s0).addSection s1
      = ⟨f.tables ++ [⟨"", [s0, s1]⟩], []⟩ := by
    rw [hstep1, SectionFile.addSection]
    simp only [List.singleton_append, List.cons_append, List.nil_append]
    rw [hfilter10]
    rw [if_pos (by simp [hcomplete])]
    rw [hsort, hfilterneg]
  refine ⟨⟨by rw [hstep1], by rw [hstep1], ?_⟩, by rw [hstep2], by rw [hstep2]⟩
  rw [hstep1]
  simp [SectionFile.sections, hor]

/-- A section of the 2-section table used in the orphan-promotion test. -/
def secC6 (i : Nat) : PSISection :=
  ⟨5, true, false, 7, 0, true, i, 1, [i], ""⟩

/-- A SectionFile already holding one complete table, with no orphans. -/
def fileC6 : SectionFile := ⟨[⟨"", [secC6 0, secC6 1]⟩], []⟩

theorem c6_orphan_promotion_witness :
    (fileC6.orphans = [] ∧ (secC6 0).section_number = 0 ∧
     (secC6 1).section_number = 1 ∧ (secC6 0).last_section_number = 1 ∧
     (secC6 1).last_section_number = 1 ∧
     (secC6 1).table_id = (secC6 0).table_id ∧
     (secC6 1).table_id_ext = (secC6 0).table_id_ext ∧
     (secC6 1).version = (secC6 0).version) ∧
    (((fileC6.addSection (secC6 0)).orphans = [secC6 0] ∧
      (fileC6.addSection (secC6 0)).tables = fileC6.tables ∧
      (fileC6.addSection (secC6 0)).sections.length
        = fileC6.sections.length + 1) ∧
     (((fileC6.addSection (secC6 0)).addSection (secC6 1)).tables
        = fileC6.tables ++ [⟨"", [secC6 0, secC6 1]⟩] ∧
      ((fileC6.addSection (secC6 0)).addSection (secC6 1)).orphans = [])) :=
  ⟨⟨rfl, rfl, rfl, rfl, rfl, rfl, rfl, rfl⟩,
   c6_orphan_promotion fileC6 (secC6 0) (secC6 1)
     rfl rfl rfl rfl rfl rfl rfl rfl⟩

/-- Modelled from the spec: building a BinaryTable from a `<PAT>` XML
element: the typed table is constructed from the element (taking the
metadata attribute along) and then serialized (spec section 4.7). -/
def tableFromXmlPAT (x : XmlPAT) : BinaryTable :=
  serializePAT (PAT.fromXml x)

/-- Any PAT deserialized from a table carries the table's attribute. -/
theorem deserializePAT_attrib (bt : BinaryTable) (p : PAT)
    (h : deserializePAT bt = some p) : p.attrib = bt.attrib := by
  obtain ⟨at_r, secs⟩ := bt
  cases secs with
  | nil => exact absurd h (by rw [deserializePAT]; simp)
  | cons s0 rest =>
    have h' : (if (s0.table_id == TID_PAT && s0.long) = true then
        Option.map (fun recs => (⟨s0.version, s0.current, s0.table_id_ext,
          lastNit recs PID_NULL, recs.filter (fun r => decide (r.1 ≠ 0)),
          at_r⟩ : PAT)) (parseAllPatRecs (s0 :: rest))
      else none) = some p := h
    by_cases hc : (s0.table_id == TID_PAT && s0.long) = true
    · rw [if_pos hc] at h'
      cases hr : parseAllPatRecs (s0 :: rest) with
      | none => rw [hr] at h'; exact absurd h' (by simp)
      | some recs =>
        rw [hr] at h'
        rw [show Option.map (fun recs => (⟨s0.version, s0.current,
          s0.table_id_ext, lastNit recs PID_NULL,
          recs.filter (fun r => decide (r.1 ≠ 0)), at_r⟩ : PAT)) (some recs)
          = some (⟨s0.version, s0.current, s0.table_id_ext,
            lastNit recs PID_NULL,
            recs.filter (fun r => decide (r.1 ≠ 0)), at_r⟩ : PAT) from rfl]
          at h'
        obtain rfl := (Option.some.inj h').symm
        rfl
    · rw [if_neg hc] at h'
      exact absurd h' (by simp)

/-- Claim C7: for every `<PAT>` XML table element whose metadata child
carries attribute "foo", the BinaryTable built from it has attribute
"foo", every one of its sections has attribute "foo", any typed table
deserialized from it carries the same attribute, and serializing the
typed table back to XML emits the metadata attribute "foo" again. -/
theorem c7_metadata_propagation (x : XmlPAT) (hx : x.metadataAttr = "foo") :
    (tableFromXmlPAT x).attrib = "foo" ∧
    (∀ s ∈ (tableFromXmlPAT x).sections, s.attrib = "foo") ∧
    (∀ p : PAT, deserializePAT (tableFromXmlPAT x) = some p →
      p.attrib = "foo" ∧ (PAT.toXml p).metadataAttr = "foo") := by
  have hbt : (tableFromXmlPAT x).attrib = "foo" := by
    simp [tableFromXmlPAT, serializePAT, PAT.fromXml, hx]
  refine ⟨hbt, ?_, ?_⟩
  · intro s hs
    have := mkSectionsAux_attr TID_PAT false (PAT.fromXml x).ts_id
      (PAT.fromXml x).version (PAT.fromXml x).current (PAT.fromXml x).attrib
      (((packItems 1012 (fun _ => 4) (patRecords (PAT.fromXml x)) [] 0).map
        (fun c => (c.map encPatRecord).flatten)).length - 1) _ 0 s hs
    rw [this]
    simp [PAT.fromXml, hx]
  · intro p hp
    have hattr := deserializePAT_attrib _ p hp
    exact ⟨hattr.trans hbt, hattr.trans hbt⟩

/-- The XML element of the metadata test. -/
def xmlC7 : XmlPAT := ⟨"foo", 0, true, 1, 0x10, [(0x100, 0x200)]⟩

theorem c7_metadata_propagation_witness :
    xmlC7.metadataAttr = "foo" ∧
    ((tableFromXmlPAT xmlC7).attrib = "foo" ∧
     (∀ s ∈ (tableFromXmlPAT xmlC7).sections, s.attrib = "foo") ∧
     (∀ p : PAT, deserializePAT (tableFromXmlPAT xmlC7) = some p →
       p.attrib = "foo" ∧ (PAT.toXml p).metadataAttr = "foo")) :=
  ⟨rfl, c7_metadata_propagation xmlC7 rfl⟩

/-- Table id of the TDT. -/
def TID_TDT : Nat := 0x70

/-- Broken-down UTC time. -/
structure TimeFields where
  year : Nat
  month : Nat
  day : Nat
  hour : Nat
  minute : Nat
  second : Nat
deriving DecidableEq

/-- Modelled from the spec: the Time and Date Table, a short-section
table carrying a 40-bit MJD+BCD UTC time (spec section 4.5). -/
structure TDT where
  utc_time : TimeFields
deriving DecidableEq

/-- Modified Julian Date of a calendar date (EN 300 468 annex C formula,
in exact integer arithmetic). -/
def mjdOfDate (y m d : Nat) : Nat :=
  14956 + d + ((y - 1900 - (if m ≤ 2 then 1 else 0)) * 1461) / 4 +
    ((m + 1 + (if m ≤ 2 then 1 else 0) * 12) * 306001) / 10000

/-- Two-digit BCD encoding. -/
def bcd (n : Nat) : Nat := 16 * (n / 10) + n % 10

/-- Two-digit BCD decoding. -/
def unbcd (b : Nat) : Nat := (b / 16) * 10 + b % 16

/-- The 5-byte MJD+BCD payload of a TDT section. -/
def encTDTPayload (t : TimeFields) : List Nat :=
  [(mjdOfDate t.year t.month t.day / 256) % 256,
   mjdOfDate t.year t.month t.day % 256,
   bcd t.hour, bcd t.minute, bcd t.second]

/-- Modelled from the spec: TDT serialization: one short section whose
payload is the 40-bit MJD+BCD time (spec section 4.5). -/
def serializeTDT (t : TDT) : BinaryTable :=
  ⟨"", [{ table_id := TID_TDT, long := false, priv := false,
          table_id_ext := 0, version := 0, current := true,
          section_number := 0, last_section_number := 0,
          payload := encTDTPayload t.utc_time, attrib := "" }]⟩

/-- Calendar date of a Modified Julian Date (EN 300 468 annex C inverse
formula, in exact integer arithmetic). -/
def dateOfMjd (mjd : Nat) : Nat × Nat × Nat :=
  (1900 + (20 * mjd - 301564) / 7305 +
     (if (10000 * (mjd - 14956 - ((20 * mjd - 301564) / 7305 * 1461) / 4)
          - 1000) / 306001 = 14 ∨
         (10000 * (mjd - 14956 - ((20 * mjd - 301564) / 7305 * 1461) / 4)
          - 1000) / 306001 = 15 then 1 else 0),
   (10000 * (mjd - 14956 - ((20 * mjd - 301564) / 7305 * 1461) / 4) - 1000)
       / 306001 - 1 -
     (if (10000 * (mjd - 14956 - ((20 * mjd - 301564) / 7305 * 1461) / 4)
          - 1000) / 306001 = 14 ∨
         (10000 * (mjd - 14956 - ((20 * mjd - 301564) / 7305 * 1461) / 4)
          - 1000) / 306001 = 15 then 1 else 0) * 12,
   mjd - 14956 - ((20 * mjd - 301564) / 7305 * 1461) / 4 -
     ((10000 * (mjd - 14956 - ((20 * mjd - 301564) / 7305 * 1461) / 4) - 1000)
       / 306001 * 306001) / 10000)

/-- Modelled from the spec: TDT deserialization: decode the 5-byte
MJD+BCD payload of the single short section (spec section 4.5). -/
def deserializeTDT (bt : BinaryTable) : Option TDT :=
  match bt.sections with
  | [s] =>
    if s.table_id == TID_TDT && !s.long then
      match s.payload with
      | [a, b, h, mn, sc] =>
        some ⟨⟨(dateOfMjd (a * 256 + b)).1, (dateOfMjd (a * 256 + b)).2.1,
               (dateOfMjd (a * 256 + b)).2.2, unbcd h, unbcd mn, unbcd sc⟩⟩
      | _ => none
    else none
  | _ => none

/-- Modelled from the spec: the `<TDT>` XML element carrying the UTC
time (spec section 4.7). -/
structure XmlTDT where
  utc : TimeFields
deriving DecidableEq

/-- Emission of a TDT to its XML element. -/
def TDT.toXml (t : TDT) : XmlTDT := ⟨t.utc_time⟩

/-- Construction of a TDT from its XML element. -/
def TDT.fromXml (x : XmlTDT) : TDT := ⟨x.utc⟩

/-- The TDT of the build-sections test: UTC 2017-12-25 14:55:27. -/
def tdtC8 : TDT := ⟨⟨2017, 12, 25, 14, 55, 27⟩⟩

/-- Claim C8: the TDT constructed for UTC 2017-12-25 14:55:27 serializes
to a valid single-section short table, and deserializing that table —
directly (the binary path) or after the XML element round trip — yields
a TDT whose utc_time is exactly 2017-12-25 14:55:27. -/
theorem c8_tdt_time_fidelity :
    (serializeTDT tdtC8).isValid = true ∧
    (serializeTDT tdtC8).sectionCount = 1 ∧
    (∀ s ∈ (serializeTDT tdtC8).sections, s.long = false) ∧
    deserializeTDT (serializeTDT tdtC8) = some tdtC8 ∧
    deserializeTDT (serializeTDT (TDT.fromXml (TDT.toXml tdtC8)))
      = some tdtC8 :=
  ⟨by decide, by decide, by decide, by decide, by decide⟩

/-- ASCII lower-casing of one character. -/
def lowerChar (c : Char) : Char :=
  if c.toNat ≥ 65 ∧ c.toNat ≤ 90 then Char.ofNat (c.toNat + 32) else c

/-- Modelled from the spec: element names are matched case-insensitively
when parsing XML, by lower-casing the looked-up name (spec section 4.2
edge rules and section 4.7). -/
def lowerName (s : String) : String := String.mk (s.data.map lowerChar)

/-- Modelled from the spec: the `<generic_long_table>` XML escape hatch:
table_id, table_id_ext, version, current and private attributes, and one
hex payload per `<section>` child (spec section 4.7). -/
structure XmlGenericLong where
  table_id : Nat
  table_id_ext : Nat
  version : Nat
  current : Bool
  priv : Bool
  sectionPayloads : List (List Nat)
deriving DecidableEq

/-- Build the BinaryTable described by a generic-long-table element:
each `<section>` child becomes one section in order, section_number =
index, last_section_number = N-1. -/
def buildGenericLong (x : XmlGenericLong) : BinaryTable :=
  ⟨"", mkLongSections x.table_id x.priv x.table_id_ext x.version x.current ""
    x.sectionPayloads⟩

/-- Modelled from the spec: the table factory lookup keyed by the
lower-cased element name; an unrecognized name is `UnknownElement`
(`none`) (spec sections 4.2 and 4.7). -/
def parseTableElem (name : String) (x : XmlGenericLong) :
    Option BinaryTable :=
  if lowerName name = "generic_long_table" then some (buildGenericLong x)
  else none

/-- Claim C9: XML element names are matched case-insensitively: for any
generic long table element, parsing it under the name GENERIC_long_TABLE
produces exactly the same BinaryTable (same table_id, table_id_extension,
version, current, private flags and per-section payloads) as under
generic_long_table. -/
theorem c9_case_insensitive_xml (x : XmlGenericLong) :
    parseTableElem "GENERIC_long_TABLE" x
      = parseTableElem "generic_long_table" x ∧
    parseTableElem "GENERIC_long_TABLE" x = some (buildGenericLong x) := by
  have h1 : lowerName "GENERIC_long_TABLE" = "generic_long_table" := by decide
  have h2 : lowerName "generic_long_table" = "generic_long_table" := by decide
  constructor <;> simp [parseTableElem, h1, h2]

/-- One step of the bitwise CRC-32 (MPEG-2 polynomial 0x04C11DB7,
MSB-first). -/
def crcBit (c : Nat) : Nat :=
  if c % 4294967296 ≥ 2147483648 then
    ((c % 4294967296) * 2) ^^^ 0x04C11DB7 % 4294967296 &&& 4294967295
  else ((c % 4294967296) * 2) &&& 4294967295

/-- Fold one byte into the CRC accumulator (8 bit steps). -/
def crcByte (c b : Nat) : Nat :=
  crcBit (crcBit (crcBit (crcBit (crcBit (crcBit (crcBit (crcBit
    (c ^^^ ((b % 256) * 16777216)))))))))

/-- Modelled from the spec: CRC-32 over a byte range: polynomial
0x04C11DB7, initial value 0xFFFFFFFF, no final xor, MSB-first
(spec sections 4.1 and 6). -/
def crc32 (bs : List Nat) : Nat := bs.foldl crcByte 0xFFFFFFFF

/-- Modelled from the spec: the wire header of a section: 3 bytes for a
short section, 8 for a long one, with section_length counting every byte
after the first 3 (spec sections 3 and 6). -/
def PSISection.headerBytes (s : PSISection) : List Nat :=
  if s.long then
    [s.table_id % 256,
     128 + (if s.priv then 64 else 0) + 48 + ((s.payload.length + 9) / 256) % 16,
     (s.payload.length + 9) % 256,
     (s.table_id_ext / 256) % 256, s.table_id_ext % 256,
     192 + (s.version % 32) * 2 + (if s.current then 1 else 0),
     s.section_number % 256, s.last_section_number % 256]
  else
    [s.table_id % 256,
     (if s.priv then 64 else 0) + 48 + (s.payload.length / 256) % 16,
     s.payload.length % 256]

/-- Modelled from the spec: the full wire encoding of a section: header,
payload, and for long sections the CRC-32 over everything before it as
the final 4 bytes (spec section 6). -/
def PSISection.toBytes (s : PSISection) : List Nat :=
  if s.long then
    s.headerBytes ++ s.payload ++
      [(crc32 (s.headerBytes ++ s.payload) / 16777216) % 256,
       (crc32 (s.headerBytes ++ s.payload) / 65536) % 256,
       (crc32 (s.headerBytes ++ s.payload) / 256) % 256,
       crc32 (s.headerBytes ++ s.payload) % 256]
  else s.headerBytes ++ s.payload

/-- The wire encoding has exactly `size` bytes. -/
theorem length_toBytes (s : PSISection) : s.toBytes.length = s.size := by
  by_cases h : s.long
  · simp [PSISection.toBytes, PSISection.headerBytes, PSISection.size, h]
  · simp [PSISection.toBytes, PSISection.headerBytes, PSISection.size, h]

/-- Modelled from the spec: `saveBuffer` into a fixed-size raw buffer:
sections are written back-to-back as long as the next one fits entirely
in the remaining capacity; the bytes actually written are returned
(spec section 4.8; a section is never truncated). -/
def saveBuffer : List PSISection → Nat → List Nat
  | [], _ => []
  | s :: rest, cap =>
    if s.toBytes.length ≤ cap then
      s.toBytes ++ saveBuffer rest (cap - s.toBytes.length)
    else []

/-- The SectionFile saveBuffer operation: write the file's sections into a raw
buffer of the given capacity. -/
def SectionFile.saveBufferBytes (f : SectionFile) (cap : Nat) : List Nat :=
  saveBuffer f.sections cap

/-- The output of `saveBuffer` is the concatenation of the whole
encodings of a leading run of sections, and never exceeds the capacity:
no section is ever truncated. -/
theorem saveBuffer_whole :
    ∀ (secs : List PSISection) (cap : Nat),
      ∃ k, saveBuffer secs cap
          = ((secs.take k).map PSISection.toBytes).flatten ∧
        (saveBuffer secs cap).length ≤ cap := by
  intro secs
  induction secs with
  | nil =>
    intro cap
    exact ⟨0, by simp [saveBuffer], by simp [saveBuffer]⟩
  | cons s rest ih =>
    intro cap
    by_cases h : s.toBytes.length ≤ cap
    · obtain ⟨k, hk, hlen⟩ := ih (cap - s.toBytes.length)
      refine ⟨k + 1, ?_, ?_⟩
      · simp [saveBuffer, h, hk]
      · rw [saveBuffer, if_pos h]
        simp only [List.length_append]
        omega
    · exact ⟨0, by simp [saveBuffer, h], by simp [saveBuffer, h]⟩

/-- Claim C10: when `saveBuffer` targets a fixed-size raw buffer too small
to hold every section, it writes only the leading sections that fit
entirely and returns the bytes actually written, never emitting a
truncated section: for a file holding a 32-byte section followed by a
55-byte section, a 40-byte buffer receives exactly the first section
(32 bytes) and a 100-byte buffer receives all 87 bytes. -/
theorem c10_save_buffer (s0 s1 : PSISection)
    (h0 : s0.size = 32) (h1 : s1.size = 55) :
    (∀ (f : SectionFile) (cap : Nat),
      ∃ k, f.saveBufferBytes cap
          = ((f.sections.take k).map PSISection.toBytes).flatten ∧
        (f.saveBufferBytes cap).length ≤ cap) ∧
    (SectionFile.mk [⟨"", [s0]⟩, ⟨"", [s1]⟩] []).saveBufferBytes 40
      = s0.toBytes ∧
    ((SectionFile.mk [⟨"", [s0]⟩, ⟨"", [s1]⟩] []).saveBufferBytes 40).length
      = 32 ∧
    (SectionFile.mk [⟨"", [s0]⟩, ⟨"", [s1]⟩] []).saveBufferBytes 100
      = s0.toBytes ++ s1.toBytes ∧
    ((SectionFile.mk [⟨"", [s0]⟩, ⟨"", [s1]⟩] []).saveBufferBytes 100).length
      = 87 := by
  have hsecs : (SectionFile.mk [⟨"", [s0]⟩, ⟨"", [s1]⟩]
      ([] : List PSISection)).sections = [s0, s1] := by
    simp [SectionFile.sections]
  have hb0 : s0.toBytes.length = 32 := by rw [length_toBytes, h0]
  have hb1 : s1.toBytes.length = 55 := by rw [length_toBytes, h1]
  refine ⟨fun f cap => saveBuffer_whole f.sections cap, ?_, ?_, ?_, ?_⟩
  · rw [SectionFile.saveBufferBytes, hsecs]
    simp only [saveBuffer, hb0, hb1]
    norm_num
  · rw [SectionFile.saveBufferBytes, hsecs]
    simp only [saveBuffer, hb0, hb1]
    norm_num [hb0]
  · rw [SectionFile.saveBufferBytes, hsecs]
    simp only [saveBuffer, hb0, hb1]
    norm_num
  · rw [SectionFile.saveBufferBytes, hsecs]
    simp only [saveBuffer, hb0, hb1]
    norm_num [hb0, hb1]

/-- A concrete long section of total size 32 (20-byte payload). -/
def secC10a : PSISection :=
  ⟨0, true, false, 1, 0, true, 0, 0, List.replicate 20 7, ""⟩

/-- A concrete long section of total size 55 (43-byte payload). -/
def secC10b : PSISection :=
  ⟨2, true, false, 1, 0, true, 0, 0, List.replicate 43 9, ""⟩

theorem c10_save_buffer_witness :
    (secC10a.size = 32 ∧ secC10b.size = 55) ∧
    ((∀ (f : SectionFile) (cap : Nat),
      ∃ k, f.saveBufferBytes cap
          = ((f.sections.take k).map PSISection.toBytes).flatten ∧
        (f.saveBufferBytes cap).length ≤ cap) ∧
    (SectionFile.mk [⟨"", [secC10a]⟩, ⟨"", [secC10b]⟩] []).saveBufferBytes 40
      = secC10a.toBytes ∧
    ((SectionFile.mk [⟨"", [secC10a]⟩, ⟨"", [secC10b]⟩]
        []).saveBufferBytes 40).length = 32 ∧
    (SectionFile.mk [⟨"", [secC10a]⟩, ⟨"", [secC10b]⟩] []).saveBufferBytes 100
      = secC10a.toBytes ++ secC10b.toBytes ∧
    ((SectionFile.mk [⟨"", [secC10a]⟩, ⟨"", [secC10b]⟩]
        []).saveBufferBytes 100).length = 87) :=
  ⟨⟨by decide, by decide⟩,
   c10_save_buffer secC10a secC10b (by decide) (by decide)⟩
